import Mathlib

/-!
Verification of the `class_generator` rendering engine
(`src/class_generator/src/gen_class.py`).

The engine is embedded shallowly over `List Char`: Python strings become
`List Char`, Python `str.split` / `str.strip` / `str.capitalize` /
`str.replace` become the executable functions `pySplit` / `pyStrip` /
`pyCapitalize` / `replaceAll` below, Python dict insertion (which keeps the
position of an existing key while updating its value) becomes `dictInsert`,
and the `pydash.get` list-index access with its `None` default becomes
`List.get?`.  Failures (the `AttributeError` raised by
`GenClass._get_methods_dictionary` when a parameter token has no colon)
become `Option.none`.  Template strings are pure inputs of the renderers,
matching the pickle-backed template store, and the file writes of
`_gen_class` are modelled as the accumulated written content.
-/

/-- Python strings, embedded as lists of characters. -/
abbrev Str := List Char

/-- The opening brace character of a placeholder token. -/
def lbrace : Char := '\x7b'

/-- The closing brace character of a placeholder token. -/
def rbrace : Char := '\x7d'

/-- Python `s.split(sep)` for a one-character separator `sep`:
`"".split(",") = [""]`, separators at the ends produce empty parts. -/
def pySplit (sep : Char) : Str → List Str
  | [] => [[]]
  | c :: rest =>
    let r := pySplit sep rest
    if c = sep then [] :: r
    else (c :: r.headD []) :: r.tail

/-- Python `s.strip()`: drop whitespace from both ends. -/
def pyStrip (l : Str) : Str :=
  ((l.dropWhile Char.isWhitespace).reverse.dropWhile Char.isWhitespace).reverse

/-- Python `s.capitalize()` (ASCII): upper-case the first character and
lower-case all the following ones. -/
def pyCapitalize : Str → Str
  | [] => []
  | c :: cs => c.toUpper :: cs.map Char.toLower

/-- `GenClass._set_tab(n)`: `4 * n` spaces. -/
def setTab (nbTab : Nat) : Str := List.replicate (4 * nbTab) ' '

/-- One scanning step bank for `replaceAll`; the fuel dominates the length of
the scanned list, so `replaceAll` below never exhausts it. -/
def replaceAllGo (p v : Str) : Nat → Str → Str
  | _, [] => []
  | 0, s => s
  | Nat.succ fuel, c :: rest =>
    if p.isPrefixOf (c :: rest) then v ++ replaceAllGo p v fuel ((c :: rest).drop p.length)
    else c :: replaceAllGo p v fuel rest

/-- Python `s.replace(p, v)` for a non-empty pattern `p`: replace every
non-overlapping occurrence of `p` in `s` by `v`, scanning left to right. -/
def replaceAll (p v s : Str) : Str := replaceAllGo p v s.length s

/-- Python dict assignment `d[k] = v`: update in place when the key exists
(keeping its position), else append at the end. -/
def dictInsert {α : Type} (k : Str) (v : α) : List (Str × α) → List (Str × α)
  | [] => [(k, v)]
  | (k', v') :: rest =>
    if k' = k then (k', v) :: rest else (k', v') :: dictInsert k v rest

/-- Python dict lookup `d.get(k)` over the association-list model. -/
def dictLookup {α : Type} (k : Str) : List (Str × α) → Option α
  | [] => none
  | (k', v') :: rest => if k' = k then some v' else dictLookup k rest

/-- One generation request, the arguments of `GenClass.__init__`:
file stem, ordered attribute mapping, ordered method mapping
(method name to raw comma-separated parameter-list string), and the
optional base-class name. -/
structure GenSpec where
  name_file : Str
  attributes : List (Str × Str)
  methods : List (Str × Str)
  inherit : Str

/-- The instance state set up by `GenClass.__init__`: the stored arguments,
the `_inherit` suffix string, and the derived `_name_class`. -/
structure GenState where
  name_file : Str
  attributes : List (Str × Str)
  methods : List (Str × Str)
  inheritStr : Str
  name_class : Str

/-- `self._inherit = f"({inherit}):" if inherit else ":"`. -/
def inheritString (inherit : Str) : Str :=
  if inherit ≠ [] then '(' :: (inherit ++ [')', ':']) else [':']

/-- `self._name_class = "".join(p.capitalize() for p in name_file.split("_"))`. -/
def nameClass (name_file : Str) : Str :=
  ((pySplit '_' name_file).map pyCapitalize).flatten

/-- `GenClass.__init__`, up to the two generation calls. -/
def mkGenState (s : GenSpec) : GenState :=
  { name_file := s.name_file
    attributes := s.attributes
    methods := s.methods
    inheritStr := inheritString s.inherit
    name_class := nameClass s.name_file }

/-- The five template strings of the pickle-backed store, as pure inputs. -/
structure Templates where
  classT : Str
  accessorsT : Str
  methodsT : Str
  methodsTestsT : Str
  testsT : Str

/-- The placeholder token with the given name: an `\x7b`, the name, an `\x7d`. -/
def tokOf (name : Str) : Str := lbrace :: (name ++ [rbrace])

def tokAttributeName : Str := tokOf "attribute_name".data
def tokAttributeType : Str := tokOf "attribute_type".data
def tokClassName : Str := tokOf "class_name".data
def tokAttributesParams : Str := tokOf "attributes_params".data
def tokAttributesDocstring : Str := tokOf "attributes_docstring".data
def tokAttributesInit : Str := tokOf "attributes_init".data
def tokMethodName : Str := tokOf "method_name".data
def tokMethodParams : Str := tokOf "method_params".data
def tokReturnType : Str := tokOf "return_type".data
def tokParamsDocstring : Str := tokOf "params_docstring".data
def tokReturnsString : Str := tokOf "returns_string".data
def tokClassFile : Str := tokOf "class_file".data
def tokParams : Str := tokOf "params".data
def tokMethodsForTests : Str := tokOf "methods_for_tests".data
def tokFileName : Str := tokOf "file_name".data

/-- The docstring filler `"Explain this attr..."`. -/
def descAttr : Str := "Explain this attr...".data

/-- The docstring filler `"Explain this..."`. -/
def msgDesc : Str := "Explain this...".data

/-- Python `sep.join(xs)`. -/
def joinSep (sep : Str) : List Str → Str
  | [] => []
  | [x] => x
  | x :: y :: rest => x ++ sep ++ joinSep sep (y :: rest)

/-- `GenClass._get_accessors`: the `accessors` template with
`attribute_name` then `attribute_type` substituted. -/
def get_accessors (t : Templates) (attribute_name attribute_type : Str) : Str :=
  replaceAll tokAttributeType attribute_type
    (replaceAll tokAttributeName attribute_name t.accessorsT)

/-- `GenClass._get_attributes_strings`: the docstring, constructor-parameter
and init-assignment strings built from the attribute mapping. -/
def get_attributes_strings (attrs : List (Str × Str)) : Str × Str × Str :=
  (joinSep ['\n']
     (attrs.map fun p => setTab 3 ++ p.1 ++ " (".data ++ p.2 ++ "): ".data ++ descAttr),
   (attrs.map fun p => ",\n".data ++ setTab 2 ++ p.1 ++ ": ".data ++ p.2).flatten,
   joinSep ['\n']
     (attrs.map fun p =>
       setTab 2 ++ "self._".data ++ p.1 ++ ": ".data ++ p.2 ++ " = ".data ++ p.1))

/-- `GenClass._get_class`: the `class` template with `class_name`,
`attributes_params`, `attributes_docstring`, `attributes_init`
substituted, in that order. -/
def get_class (t : Templates) (st : GenState) : Str :=
  let s := get_attributes_strings st.attributes
  replaceAll tokAttributesInit s.2.2
    (replaceAll tokAttributesDocstring s.1
      (replaceAll tokAttributesParams s.2.1
        (replaceAll tokClassName st.name_class t.classT)))

/-- One step of `GenClass._get_methods_dictionary`: split the token on `:`
(every colon), fail like the Python `AttributeError` when there is no piece
after the first colon, split that piece on `=` (every equals sign), strip the
name and the type, and strip the default value when it is truthy. -/
def parseParam (param : Str) : Option (Str × (Str × Option Str)) :=
  let param_split_name_type := pySplit ':' param
  match param_split_name_type.get? 1 with
  | none => none
  | some afterColon =>
    let param_split_type_default_value := pySplit '=' afterColon
    let param_name := pyStrip (param_split_name_type.headD [])
    let param_type := pyStrip (param_split_type_default_value.headD [])
    let param_default_value :=
      match param_split_type_default_value.get? 1 with
      | none => none
      | some d => some (if d = [] then d else pyStrip d)
    some (param_name, (param_type, param_default_value))

/-- The loop of `GenClass._get_methods_dictionary`, threading the dict. -/
def methodsDictionaryGo (acc : List (Str × (Str × Option Str))) :
    List Str → Option (List (Str × (Str × Option Str)))
  | [] => some acc
  | p :: rest =>
    match parseParam p with
    | none => none
    | some (n, tv) => methodsDictionaryGo (dictInsert n tv acc) rest

/-- `GenClass._get_methods_dictionary`: fold the parameter tokens into a
dict keyed by the stripped parameter name; the first token without a colon
aborts the whole method (Python raises `AttributeError`). -/
def get_methods_dictionary (method_params : List Str) :
    Option (List (Str × (Str × Option Str))) :=
  methodsDictionaryGo [] method_params

/-- The four strings returned by `GenClass._get_methods_strings`. -/
structure MethodStrings where
  method_params_list : Str
  return_type : Str
  params_docstring : Str
  returns_string : Str
deriving DecidableEq

/-- `GenClass._get_methods_strings`: signature parameters (all tokens but the
last, stripped), return type (`get(params, "return.0", "None")`), parameter
docstring (dict entries not keyed `return`), and the Returns block (emitted
when the return type differs from `"None"`). -/
def get_methods_strings (method_params : List Str) : Option MethodStrings :=
  match get_methods_dictionary method_params with
  | none => none
  | some params =>
    let return_type : Str :=
      match dictLookup "return".data params with
      | some tv => tv.1
      | none => "None".data
    let returns_string : Str :=
      if return_type ≠ "None".data then
        "\n\n".data ++ setTab 2 ++ "Returns:\n".data
          ++ setTab 3 ++ return_type ++ ": ".data ++ msgDesc
      else []
    let params_docstring : Str :=
      joinSep ('\n' :: setTab 3)
        ((params.filter fun kv => kv.1 ≠ "return".data).map
          fun kv => kv.1 ++ " (".data ++ kv.2.1 ++ "): ".data ++ msgDesc)
    let method_params_list : Str :=
      joinSep (',' :: '\n' :: setTab 2) (method_params.dropLast.map pyStrip)
    some ⟨method_params_list, return_type, params_docstring, returns_string⟩

/-- `GenClass._get_method`: the `methods` template with `method_name`,
`method_params`, `return_type`, `params_docstring`, `returns_string`
substituted, in that order; fails when the parameter dict does. -/
def get_method (t : Templates) (method_name : Str) (method_params : List Str) :
    Option Str :=
  match get_methods_strings method_params with
  | none => none
  | some ms =>
    some (replaceAll tokReturnsString ms.returns_string
      (replaceAll tokParamsDocstring ms.params_docstring
        (replaceAll tokReturnType ms.return_type
          (replaceAll tokMethodParams ms.method_params_list
            (replaceAll tokMethodName method_name t.methodsT)))))

/-- The concatenation of all accessor blocks in attribute order, as written
by the first loop of `GenClass._gen_class`. -/
def accessorsAll (t : Templates) (st : GenState) : Str :=
  (st.attributes.map fun p => get_accessors t p.1 p.2).flatten

/-- The method loop of `GenClass._gen_class` as it writes to the file:
the content written so far, and whether every method rendered (`false`
marks the propagated exception of a failed render). -/
def runMethods (t : Templates) (acc : Str) : List (Str × Str) → Str × Bool
  | [] => (acc, true)
  | (mn, mp) :: rest =>
    match get_method t mn (pySplit ',' mp) with
    | none => (acc, false)
    | some s => runMethods t (acc ++ s) rest

/-- `GenClass._gen_class` as a file-write run: the header and the accessor
blocks are written first, then the method blocks until the first failure. -/
def genClassRun (t : Templates) (st : GenState) : Str × Bool :=
  runMethods t (get_class t st ++ accessorsAll t st) st.methods

/-- The method blocks of `GenClass._gen_class`, one per method in
declaration order, or `none` when some method fails to render. -/
def renderMethodBlocks (t : Templates) : List (Str × Str) → Option (List Str)
  | [] => some []
  | m :: rest =>
    match get_method t m.1 (pySplit ',' m.2), renderMethodBlocks t rest with
    | some b, some bs => some (b :: bs)
    | _, _ => none

/-- The complete class text of `GenClass._gen_class` when every stage
succeeds: header, accessors in attribute order, methods in method order. -/
def genClassTextOpt (t : Templates) (st : GenState) : Option Str :=
  match renderMethodBlocks t st.methods with
  | none => none
  | some outs => some (get_class t st ++ accessorsAll t st ++ outs.flatten)

/-- The parameter names listed by `GenClass._get_method_tests`: the part of
each token before its first colon, not stripped, for all tokens but the
last. -/
def testParamNames (raw : Str) : List Str :=
  ((pySplit ',' raw).dropLast).map fun p => (pySplit ':' p).headD []

/-- The separator of the `params` substitution in `_get_method_tests`. -/
def testParamsSep : Str := ',' :: '\n' :: (setTab 2 ++ '#' :: setTab 1)

/-- The `params` substitution of `GenClass._get_method_tests`. -/
def testParamsString (raw : Str) : Str :=
  joinSep testParamsSep (testParamNames raw)

/-- `GenClass._get_method_tests`: the `methods_tests` template with
`method_name`, `class_file`, `class_name`, `params` substituted, in that
order. -/
def get_method_tests (t : Templates) (st : GenState) (method_name raw : Str) : Str :=
  replaceAll tokParams (testParamsString raw)
    (replaceAll tokClassName st.name_class
      (replaceAll tokClassFile st.name_file
        (replaceAll tokMethodName method_name t.methodsTestsT)))

/-- `GenClass._get_class_tests`: the `tests` template with `class_name`,
`methods_for_tests`, `file_name` substituted, in that order. -/
def get_class_tests (t : Templates) (st : GenState) (methods_for_tests : Str) : Str :=
  replaceAll tokFileName st.name_file
    (replaceAll tokMethodsForTests methods_for_tests
      (replaceAll tokClassName st.name_class t.testsT))

/-- `GenClass._gen_unit_tests`: the test-class shell around the
concatenation of the per-method stubs, in method order. -/
def genTestsText (t : Templates) (st : GenState) : Str :=
  get_class_tests t st
    ((st.methods.map fun m => get_method_tests t st m.1 m.2).flatten)

/-!
Definitions written from the claims' words (not from the source), for the
refinement comparisons of the corrected claims.
-/

/-- The class-name derivation as claim C1 words it: split on underscore,
capitalize only the first character of each segment and leave every other
character untouched, concatenate. -/
def specDeriveClassName (s : Str) : Str :=
  ((pySplit '_' s).map fun seg =>
    match seg with
    | [] => ([] : Str)
    | c :: cs => c.toUpper :: cs).flatten

/-- Split a string at the first occurrence of `sep`: the part before it and,
when `sep` occurs, the whole remainder after it. -/
def splitFirst (sep : Char) : Str → Str × Option Str
  | [] => ([], none)
  | c :: rest =>
    if c = sep then ([], some rest)
    else
      let r := splitFirst sep rest
      (c :: r.1, r.2)

/-- The parameter-token parser as claim C3 words it: split the token on the
first colon into name and rest, split rest on the first equals sign into
type and default, trim all three; the default is absent when there is no
equals sign. -/
def specParseParam (tok : Str) : Option (Str × (Str × Option Str)) :=
  match (splitFirst ':' tok).2 with
  | none => none
  | some rest =>
    let name := pyStrip (splitFirst ':' tok).1
    match (splitFirst '=' rest).2 with
    | none => some (name, (pyStrip rest, none))
    | some d => some (name, (pyStrip (splitFirst '=' rest).1, some (pyStrip d)))

/-- The names of the parameters rendered into the method signature: the
stripped name part of every raw token but the last. -/
def sigParamNames (method_params : List Str) : List Str :=
  method_params.dropLast.map fun p => pyStrip ((pySplit ':' p).headD [])

/-- The names documented by the `params_docstring` substitution: the keys of
the parsed parameter dict other than `return`. -/
def docParamNames (method_params : List Str) : Option (List Str) :=
  (get_methods_dictionary method_params).map fun d =>
    (d.filter fun kv => kv.1 ≠ "return".data).map Prod.fst

/-- The return descriptor as claim C5 words it: the type component of the
reserved final entry of the parameter list. -/
def specFinalReturnType (method_params : List Str) : Option Str :=
  match method_params.getLast? with
  | none => none
  | some last => (parseParam last).map fun r => r.2.1

/-- The test-stub parameter names as claim C6 words them: derived the same
way as in the parameter parser, the part before the colon trimmed of
surrounding whitespace, the last raw token excluded. -/
def specTestParamNames (raw : Str) : List Str :=
  ((pySplit ',' raw).dropLast).map fun p => pyStrip ((pySplit ':' p).headD [])

/-!
Helper lemmas: characters, brace freedom, `pySplit`, `pyStrip`.
-/

/-- A string with no brace characters, so it can hold no placeholder token. -/
def braceFree (l : Str) : Prop := ∀ c ∈ l, c ≠ lbrace ∧ c ≠ rbrace

instance braceFree_decidable (l : Str) : Decidable (braceFree l) :=
  inferInstanceAs (Decidable (∀ c ∈ l, c ≠ lbrace ∧ c ≠ rbrace))

theorem char_toNat_ofNat_valid (n : Nat) (h : n.isValidChar) :
    (Char.ofNat n).toNat = n := by
  simp [Char.ofNat, dif_pos h, Char.ofNatAux, Char.toNat, UInt32.toNat,
    BitVec.toNat_ofNatLt]

theorem toUpper_ne_of_gt {c b : Char} (hb : 122 < b.toNat) (h : c ≠ b) :
    c.toUpper ≠ b := by
  by_cases hc : c.toNat ≥ 97 ∧ c.toNat ≤ 122
  · have h1 : c.toUpper = Char.ofNat (c.toNat - 32) := by
      simp only [Char.toUpper]
      rw [if_pos hc]
    rw [h1]
    intro heq
    have h2 := congrArg Char.toNat heq
    rw [char_toNat_ofNat_valid] at h2
    · omega
    · exact Or.inl (by omega)
  · have h1 : c.toUpper = c := by
      simp only [Char.toUpper]
      rw [if_neg hc]
    rw [h1]
    exact h

theorem toLower_ne_of_gt {c b : Char} (hb : 122 < b.toNat) (h : c ≠ b) :
    c.toLower ≠ b := by
  by_cases hc : c.toNat ≥ 65 ∧ c.toNat ≤ 90
  · have h1 : c.toLower = Char.ofNat (c.toNat + 32) := by
      simp only [Char.toLower]
      rw [if_pos hc]
    rw [h1]
    intro heq
    have h2 := congrArg Char.toNat heq
    rw [char_toNat_ofNat_valid] at h2
    · omega
    · exact Or.inl (by omega)
  · have h1 : c.toLower = c := by
      simp only [Char.toLower]
      rw [if_neg hc]
    rw [h1]
    exact h

theorem braceFree_nil : braceFree [] := by
  intro c hc
  cases hc

theorem braceFree_cons {c : Char} {l : Str} (h1 : c ≠ lbrace) (h2 : c ≠ rbrace)
    (h : braceFree l) : braceFree (c :: l) := by
  intro d hd
  rcases List.mem_cons.mp hd with rfl | hd
  · exact ⟨h1, h2⟩
  · exact h d hd

theorem braceFree_of_cons {c : Char} {l : Str} (h : braceFree (c :: l)) :
    braceFree l := fun d hd => h d (List.mem_cons_of_mem c hd)

theorem braceFree_append {a b : Str} (ha : braceFree a) (hb : braceFree b) :
    braceFree (a ++ b) := by
  intro c hc
  rcases List.mem_append.mp hc with h | h
  · exact ha c h
  · exact hb c h

theorem braceFree_mono {a b : Str} (hsub : ∀ c ∈ a, c ∈ b) (hb : braceFree b) :
    braceFree a := fun c hc => hb c (hsub c hc)

theorem braceFree_flatten {xs : List Str} (h : ∀ x ∈ xs, braceFree x) :
    braceFree xs.flatten := by
  induction xs with
  | nil => exact braceFree_nil
  | cons x rest ih =>
    rw [List.flatten_cons]
    exact braceFree_append (h x (List.mem_cons_self x rest))
      (ih fun y hy => h y (List.mem_cons_of_mem x hy))

theorem braceFree_joinSep {sep : Str} {xs : List Str} (hsep : braceFree sep)
    (h : ∀ x ∈ xs, braceFree x) : braceFree (joinSep sep xs) := by
  induction xs with
  | nil => exact braceFree_nil
  | cons x rest ih =>
    cases rest with
    | nil => exact h x (List.mem_cons_self x [])
    | cons y rest' =>
      rw [joinSep]
      exact braceFree_append
        (braceFree_append (h x (List.mem_cons_self x (y :: rest'))) hsep)
        (ih fun z hz => h z (List.mem_cons_of_mem x hz))

theorem braceFree_setTab (n : Nat) : braceFree (setTab n) := by
  intro c hc
  have := List.eq_of_mem_replicate hc
  subst this
  exact ⟨by decide, by decide⟩

theorem braceFree_map_toLower {l : Str} (h : braceFree l) :
    braceFree (l.map Char.toLower) := by
  intro c hc
  obtain ⟨d, hd, rfl⟩ := List.mem_map.mp hc
  exact ⟨toLower_ne_of_gt (by decide) (h d hd).1, toLower_ne_of_gt (by decide) (h d hd).2⟩

theorem braceFree_pyCapitalize {l : Str} (h : braceFree l) :
    braceFree (pyCapitalize l) := by
  cases l with
  | nil => exact braceFree_nil
  | cons c cs =>
    have hc := h c (List.mem_cons_self c cs)
    exact braceFree_cons (toUpper_ne_of_gt (by decide) hc.1)
      (toUpper_ne_of_gt (by decide) hc.2)
      (braceFree_map_toLower (braceFree_of_cons h))

theorem mem_pyStrip {c : Char} {l : Str} (h : c ∈ pyStrip l) : c ∈ l := by
  unfold pyStrip at h
  rw [List.mem_reverse] at h
  have h1 := (List.dropWhile_sublist _).subset h
  rw [List.mem_reverse] at h1
  exact (List.dropWhile_sublist _).subset h1

theorem braceFree_pyStrip {l : Str} (h : braceFree l) : braceFree (pyStrip l) :=
  braceFree_mono (fun _ hc => mem_pyStrip hc) h

theorem pySplit_ne_nil (sep : Char) (l : Str) : pySplit sep l ≠ [] := by
  cases l with
  | nil => simp [pySplit]
  | cons c rest =>
    simp only [pySplit]
    split <;> simp

theorem headD_mem {xs : List Str} (h : xs ≠ []) : xs.headD [] ∈ xs := by
  cases xs with
  | nil => exact absurd rfl h
  | cons x rest => exact List.mem_cons_self x rest

theorem mem_of_mem_tail {xs : List Str} {x : Str} (h : x ∈ xs.tail) : x ∈ xs := by
  cases xs with
  | nil => cases h
  | cons y rest => exact List.mem_cons_of_mem y h

theorem mem_pySplit {sep c : Char} {l part : Str} (hpart : part ∈ pySplit sep l)
    (hc : c ∈ part) : c ∈ l := by
  induction l generalizing part with
  | nil =>
    simp only [pySplit, List.mem_singleton] at hpart
    subst hpart
    cases hc
  | cons c0 rest ih =>
    simp only [pySplit] at hpart
    split at hpart
    · rcases List.mem_cons.mp hpart with rfl | hpart
      · cases hc
      · exact List.mem_cons_of_mem c0 (ih hpart hc)
    · rcases List.mem_cons.mp hpart with rfl | hpart
      · rcases List.mem_cons.mp hc with rfl | hc
        · exact List.mem_cons_self c rest
        · exact List.mem_cons_of_mem c0
            (ih (headD_mem (pySplit_ne_nil sep rest)) hc)
      · exact List.mem_cons_of_mem c0 (ih (mem_of_mem_tail hpart) hc)

theorem pySplit_not_mem {sep : Char} {l : Str} (h : sep ∉ l) :
    pySplit sep l = [l] := by
  induction l with
  | nil => rfl
  | cons c rest ih =>
    have hc : ¬ c = sep := fun hcs => h (hcs ▸ List.mem_cons_self c rest)
    have hrest : sep ∉ rest := fun hs => h (List.mem_cons_of_mem c hs)
    simp only [pySplit, if_neg hc, ih hrest]
    rfl

theorem pySplit_append {sep : Char} {a b : Str} (h : sep ∉ a) :
    pySplit sep (a ++ sep :: b) = a :: pySplit sep b := by
  induction a with
  | nil => simp [pySplit]
  | cons c a' ih =>
    have hc : ¬ c = sep := fun hcs => h (hcs ▸ List.mem_cons_self c a')
    have ha' : sep ∉ a' := fun hs => h (List.mem_cons_of_mem c hs)
    simp only [List.cons_append, pySplit, if_neg hc, List.append_eq, ih ha']
    rfl

theorem count_eq_one_decomp {l : Str} {x : Char} (h : l.count x = 1) :
    ∃ a b, l = a ++ x :: b ∧ x ∉ a ∧ x ∉ b := by
  induction l with
  | nil => simp at h
  | cons c t ih =>
    by_cases hc : c = x
    · subst hc
      have ht : t.count c = 0 := by
        rw [List.count_cons_self] at h
        omega
      exact ⟨[], t, rfl, by simp, List.count_eq_zero.mp ht⟩
    · rw [List.count_cons_of_ne (fun hxc => hc hxc.symm)] at h
      obtain ⟨a, b, rfl, ha, hb⟩ := ih h
      exact ⟨c :: a, b, rfl, by
        intro hx
        rcases List.mem_cons.mp hx with hx | hx
        · exact hc hx.symm
        · exact ha hx, hb⟩

theorem pySplit_get1_none_iff {sep : Char} {l : Str} :
    (pySplit sep l).get? 1 = none ↔ sep ∉ l := by
  induction l with
  | nil => simp [pySplit]
  | cons c rest ih =>
    simp only [pySplit]
    by_cases hc : c = sep
    · subst hc
      rw [if_pos rfl]
      obtain ⟨h0, t0, ht⟩ : ∃ h0 t0, pySplit c rest = h0 :: t0 := by
        cases hsp : pySplit c rest with
        | nil => exact absurd hsp (pySplit_ne_nil c rest)
        | cons h0 t0 => exact ⟨h0, t0, rfl⟩
      rw [ht]
      simp
    · rw [if_neg hc]
      obtain ⟨h0, t0, ht⟩ : ∃ h0 t0, pySplit sep rest = h0 :: t0 := by
        cases hsp : pySplit sep rest with
        | nil => exact absurd hsp (pySplit_ne_nil sep rest)
        | cons h0 t0 => exact ⟨h0, t0, rfl⟩
      rw [ht] at ih ⊢
      simp only [List.headD_cons, List.tail_cons, List.get?_cons_succ,
        List.get?_cons_zero] at ih ⊢
      rw [ih]
      constructor
      · intro hnr hmem
        rcases List.mem_cons.mp hmem with hsc | hsc
        · exact hc hsc.symm
        · exact hnr hsc
      · intro hncr hs
        exact hncr (List.mem_cons_of_mem c hs)

/-!
Equations for `replaceAll`.
-/

theorem replaceAllGo_congr {p v : Str} (hp : p ≠ []) :
    ∀ (n : Nat) (s : Str), s.length ≤ n → ∀ f₁ f₂ : Nat,
      s.length ≤ f₁ → s.length ≤ f₂ →
      replaceAllGo p v f₁ s = replaceAllGo p v f₂ s := by
  intro n
  induction n with
  | zero =>
    intro s hs f₁ f₂ h₁ h₂
    have : s = [] := List.eq_nil_of_length_eq_zero (Nat.le_zero.mp hs)
    subst this
    cases f₁ <;> cases f₂ <;> rfl
  | succ n ih =>
    intro s hs f₁ f₂ h₁ h₂
    cases s with
    | nil => cases f₁ <;> cases f₂ <;> rfl
    | cons c rest =>
      have hplen : 1 ≤ p.length := List.length_pos.mpr hp
      obtain ⟨g₁, rfl⟩ : ∃ g₁, f₁ = g₁ + 1 := by
        cases f₁ with
        | zero => simp at h₁
        | succ g₁ => exact ⟨g₁, rfl⟩
      obtain ⟨g₂, rfl⟩ : ∃ g₂, f₂ = g₂ + 1 := by
        cases f₂ with
        | zero => simp at h₂
        | succ g₂ => exact ⟨g₂, rfl⟩
      simp only [List.length_cons] at hs h₁ h₂
      simp only [replaceAllGo]
      by_cases hpre : p.isPrefixOf (c :: rest) = true
      · rw [if_pos hpre, if_pos hpre]
        congr 1
        apply ih
        · rw [List.length_drop]
          simp only [List.length_cons]
          omega
        · rw [List.length_drop]
          simp only [List.length_cons]
          omega
        · rw [List.length_drop]
          simp only [List.length_cons]
          omega
      · rw [if_neg hpre, if_neg hpre]
        congr 1
        exact ih rest (by omega) g₁ g₂ (by omega) (by omega)

theorem replaceAllGo_fuel {p v : Str} (hp : p ≠ []) (s : Str) (f : Nat)
    (hf : s.length ≤ f) : replaceAllGo p v f s = replaceAll p v s :=
  replaceAllGo_congr hp s.length s le_rfl f s.length hf le_rfl

theorem replaceAll_nil (p v : Str) : replaceAll p v [] = [] := rfl

theorem replaceAll_cons_neg {p v : Str} {c : Char} {rest : Str}
    (h : p.isPrefixOf (c :: rest) = false) :
    replaceAll p v (c :: rest) = c :: replaceAll p v rest := by
  show replaceAllGo p v (rest.length + 1) (c :: rest) = _
  simp only [replaceAllGo, h]
  rfl

theorem replaceAll_pos {p v s : Str} (hp : p ≠ []) (h : p.isPrefixOf s = true) :
    replaceAll p v s = v ++ replaceAll p v (s.drop p.length) := by
  cases s with
  | nil =>
    cases p with
    | nil => exact absurd rfl hp
    | cons a as => simp [List.isPrefixOf] at h
  | cons c rest =>
    have hplen : 1 ≤ p.length := List.length_pos.mpr hp
    show replaceAllGo p v (rest.length + 1) (c :: rest) = _
    simp only [replaceAllGo, h, if_pos]
    congr 1
    apply replaceAllGo_fuel hp
    rw [List.length_drop]
    simp only [List.length_cons]
    omega

theorem isPrefixOf_append_self (p s : Str) : p.isPrefixOf (p ++ s) = true := by
  induction p with
  | nil => cases s <;> rfl
  | cons a as ih => simp [List.isPrefixOf, ih]

theorem replaceAll_head_match {p v : Str} (hp : p ≠ []) (s : Str) :
    replaceAll p v (p ++ s) = v ++ replaceAll p v s := by
  rw [replaceAll_pos hp (isPrefixOf_append_self p s), List.drop_left]

theorem replaceAll_skip {hp : Char} {pt v : Str} (a s : Str) (h : hp ∉ a) :
    replaceAll (hp :: pt) v (a ++ s) = a ++ replaceAll (hp :: pt) v s := by
  induction a with
  | nil => rfl
  | cons c a' ih =>
    have hc : hp ≠ c := fun hcs => h (hcs ▸ List.mem_cons_self c a')
    have ha' : hp ∉ a' := fun hx => h (List.mem_cons_of_mem c hx)
    have hpre : (hp :: pt).isPrefixOf (c :: (a' ++ s)) = false := by
      have hb : (hp == c) = false := beq_eq_false_iff_ne.mpr hc
      simp [List.isPrefixOf, hb]
    rw [List.cons_append, replaceAll_cons_neg hpre, ih ha']
    simp

/-!
Templates that contain only enumerated placeholder tokens, and how
`replaceAll` acts on them.
-/

/-- A template whose text decomposes into brace-free literal characters and
whole placeholder tokens drawn from `toks`. -/
inductive TemplateOK (toks : List Str) : Str → Prop
  | nil : TemplateOK toks []
  | lit : ∀ {c : Char} {t : Str}, c ≠ lbrace → c ≠ rbrace →
      TemplateOK toks t → TemplateOK toks (c :: t)
  | tok : ∀ {n : Str} {t : Str}, n ∈ toks →
      TemplateOK toks t → TemplateOK toks (tokOf n ++ t)

theorem templateOK_of_braceFree_append {toks : List Str} {v t : Str}
    (hv : braceFree v) (ht : TemplateOK toks t) : TemplateOK toks (v ++ t) := by
  induction v with
  | nil => exact ht
  | cons c v' ih =>
    have hc := hv c (List.mem_cons_self c v')
    exact TemplateOK.lit hc.1 hc.2 (ih (braceFree_of_cons hv))

theorem braceFree_of_templateOK_nil {t : Str} (h : TemplateOK [] t) :
    braceFree t := by
  induction h with
  | nil => exact braceFree_nil
  | lit h1 h2 _ ih => exact braceFree_cons h1 h2 ih
  | tok hn _ _ => cases hn

theorem tok_suffix_not_prefix : ∀ (n m t : Str), braceFree n → braceFree m →
    n ≠ m → (n ++ [rbrace]).isPrefixOf (m ++ rbrace :: t) = false := by
  intro n
  induction n with
  | nil =>
    intro m t _ hm hne
    cases m with
    | nil => exact absurd rfl hne
    | cons c m' =>
      have hc := (hm c (List.mem_cons_self c m')).2
      have hb : (rbrace == c) = false := beq_eq_false_iff_ne.mpr (fun h => hc h.symm)
      simp [List.isPrefixOf, hb]
  | cons c n' ih =>
    intro m t hn hm hne
    cases m with
    | nil =>
      have hc := (hn c (List.mem_cons_self c n')).2
      have hb : (c == rbrace) = false := beq_eq_false_iff_ne.mpr hc
      simp [List.isPrefixOf, hb]
    | cons d m' =>
      by_cases hcd : c = d
      · subst hcd
        have hne' : n' ≠ m' := by
          intro hx
          exact hne (by rw [hx])
        have := ih m' t (braceFree_of_cons hn) (braceFree_of_cons hm) hne'
        simp [List.isPrefixOf, this]
      · have hb : (c == d) = false := beq_eq_false_iff_ne.mpr hcd
        simp [List.isPrefixOf, hb]

theorem tokOf_not_prefix {n m : Str} (t : Str) (hn : braceFree n)
    (hm : braceFree m) (hne : n ≠ m) :
    (tokOf n).isPrefixOf (tokOf m ++ t) = false := by
  have key := tok_suffix_not_prefix n m t hn hm hne
  show (lbrace :: (n ++ [rbrace])).isPrefixOf ((lbrace :: (m ++ [rbrace])) ++ t) = false
  rw [List.cons_append]
  have harr : (m ++ [rbrace]) ++ t = m ++ rbrace :: t := by simp
  rw [harr]
  simp [List.isPrefixOf, key]

theorem lbrace_not_mem_tok_body {m : Str} (hm : braceFree m) :
    lbrace ∉ m ++ [rbrace] := by
  intro hmem
  rcases List.mem_append.mp hmem with h | h
  · exact (hm lbrace h).1 rfl
  · rw [List.mem_singleton] at h
    exact absurd h (by decide)

theorem replaceAll_tok_skip {n m : Str} (v t : Str) (hn : braceFree n)
    (hm : braceFree m) (hne : n ≠ m) :
    replaceAll (tokOf n) v (tokOf m ++ t) = tokOf m ++ replaceAll (tokOf n) v t := by
  have h1 : tokOf m ++ t = lbrace :: ((m ++ [rbrace]) ++ t) := by
    show lbrace :: (m ++ [rbrace]) ++ t = _
    simp
  have hpre : (tokOf n).isPrefixOf (lbrace :: ((m ++ [rbrace]) ++ t)) = false := by
    have := tokOf_not_prefix t hn hm hne
    rw [h1] at this
    exact this
  have hnotmem := lbrace_not_mem_tok_body hm
  have hskip : replaceAll (tokOf n) v ((m ++ [rbrace]) ++ t)
      = (m ++ [rbrace]) ++ replaceAll (tokOf n) v t := by
    show replaceAll (lbrace :: (n ++ [rbrace])) v _ = _
    exact @replaceAll_skip lbrace (n ++ [rbrace]) v (m ++ [rbrace]) t hnotmem
  rw [h1, replaceAll_cons_neg hpre, hskip]
  show _ = lbrace :: (m ++ [rbrace]) ++ _
  simp

theorem templateOK_replaceAll (toks : List Str)
    (htoks : ∀ m ∈ toks, braceFree m) (T : Str) (hT : TemplateOK toks T)
    (n v : Str) (hn : braceFree n) (hv : braceFree v) :
    TemplateOK (toks.filter fun m => m ≠ n) (replaceAll (tokOf n) v T) := by
  induction hT with
  | nil => exact TemplateOK.nil
  | @lit c t h1 h2 _ ih =>
    have hpre : (tokOf n).isPrefixOf (c :: t) = false := by
      have hb : (lbrace == c) = false := beq_eq_false_iff_ne.mpr (fun h => h1 h.symm)
      show (lbrace :: (n ++ [rbrace])).isPrefixOf (c :: t) = false
      simp [List.isPrefixOf, hb]
    rw [replaceAll_cons_neg hpre]
    exact TemplateOK.lit h1 h2 ih
  | @tok m t hm _ ih =>
    by_cases hmn : m = n
    · subst hmn
      rw [replaceAll_head_match (by simp [tokOf]) t]
      exact templateOK_of_braceFree_append hv ih
    · rw [replaceAll_tok_skip v t hn (htoks m hm) (fun h => hmn h.symm)]
      refine TemplateOK.tok ?_ ih
      rw [List.mem_filter]
      exact ⟨hm, by simp [hmn]⟩

/-- The placeholder-token names enumerated for the `class` template. -/
def classTokNames : List Str :=
  ["class_name".data, "attributes_params".data,
   "attributes_docstring".data, "attributes_init".data]

/-- The placeholder-token names enumerated for the `accessors` template. -/
def accessorsTokNames : List Str :=
  ["attribute_name".data, "attribute_type".data]

/-- The placeholder-token names enumerated for the `methods` template. -/
def methodsTokNames : List Str :=
  ["method_name".data, "method_params".data, "return_type".data,
   "params_docstring".data, "returns_string".data]

/-- The placeholder-token names enumerated for the `methods_tests` template. -/
def methodsTestsTokNames : List Str :=
  ["method_name".data, "class_file".data, "class_name".data, "params".data]

/-- The placeholder-token names enumerated for the `tests` template. -/
def testsTokNames : List Str :=
  ["class_name".data, "methods_for_tests".data, "file_name".data]

/-- Each template of the store contains only its enumerated tokens. -/
def TemplatesOK (t : Templates) : Prop :=
  TemplateOK classTokNames t.classT ∧
  TemplateOK accessorsTokNames t.accessorsT ∧
  TemplateOK methodsTokNames t.methodsT ∧
  TemplateOK methodsTestsTokNames t.methodsTestsT ∧
  TemplateOK testsTokNames t.testsT

theorem braceFree_get_accessors {t : Templates} {an ty : Str}
    (hT : TemplateOK accessorsTokNames t.accessorsT)
    (h1 : braceFree an) (h2 : braceFree ty) :
    braceFree (get_accessors t an ty) := by
  have s1 := templateOK_replaceAll accessorsTokNames (by decide) t.accessorsT hT
    "attribute_name".data an (by decide) h1
  have s2 := templateOK_replaceAll _ (by decide) _ s1
    "attribute_type".data ty (by decide) h2
  have hnil : ((accessorsTokNames.filter fun m => m ≠ "attribute_name".data).filter
      fun m => m ≠ "attribute_type".data) = [] := by decide
  rw [hnil] at s2
  exact braceFree_of_templateOK_nil s2

theorem braceFree_get_class_chain {T cn ap ad ai : Str}
    (hT : TemplateOK classTokNames T) (h1 : braceFree cn) (h2 : braceFree ap)
    (h3 : braceFree ad) (h4 : braceFree ai) :
    braceFree (replaceAll tokAttributesInit ai
      (replaceAll tokAttributesDocstring ad
        (replaceAll tokAttributesParams ap
          (replaceAll tokClassName cn T)))) := by
  have s1 := templateOK_replaceAll classTokNames (by decide) T hT
    "class_name".data cn (by decide) h1
  have s2 := templateOK_replaceAll _ (by decide) _ s1
    "attributes_params".data ap (by decide) h2
  have s3 := templateOK_replaceAll _ (by decide) _ s2
    "attributes_docstring".data ad (by decide) h3
  have s4 := templateOK_replaceAll _ (by decide) _ s3
    "attributes_init".data ai (by decide) h4
  have hnil : ((((classTokNames.filter fun m => m ≠ "class_name".data).filter
      fun m => m ≠ "attributes_params".data).filter
      fun m => m ≠ "attributes_docstring".data).filter
      fun m => m ≠ "attributes_init".data) = [] := by decide
  rw [hnil] at s4
  exact braceFree_of_templateOK_nil s4

theorem braceFree_get_method_chain {T mn mp rt pd rs : Str}
    (hT : TemplateOK methodsTokNames T) (h1 : braceFree mn) (h2 : braceFree mp)
    (h3 : braceFree rt) (h4 : braceFree pd) (h5 : braceFree rs) :
    braceFree (replaceAll tokReturnsString rs
      (replaceAll tokParamsDocstring pd
        (replaceAll tokReturnType rt
          (replaceAll tokMethodParams mp
            (replaceAll tokMethodName mn T))))) := by
  have s1 := templateOK_replaceAll methodsTokNames (by decide) T hT
    "method_name".data mn (by decide) h1
  have s2 := templateOK_replaceAll _ (by decide) _ s1
    "method_params".data mp (by decide) h2
  have s3 := templateOK_replaceAll _ (by decide) _ s2
    "return_type".data rt (by decide) h3
  have s4 := templateOK_replaceAll _ (by decide) _ s3
    "params_docstring".data pd (by decide) h4
  have s5 := templateOK_replaceAll _ (by decide) _ s4
    "returns_string".data rs (by decide) h5
  have hnil : (((((methodsTokNames.filter fun m => m ≠ "method_name".data).filter
      fun m => m ≠ "method_params".data).filter
      fun m => m ≠ "return_type".data).filter
      fun m => m ≠ "params_docstring".data).filter
      fun m => m ≠ "returns_string".data) = [] := by decide
  rw [hnil] at s5
  exact braceFree_of_templateOK_nil s5

theorem braceFree_get_method_tests {t : Templates} {st : GenState} {mn raw : Str}
    (hT : TemplateOK methodsTestsTokNames t.methodsTestsT) (h1 : braceFree mn)
    (h2 : braceFree st.name_file) (h3 : braceFree st.name_class)
    (h4 : braceFree (testParamsString raw)) :
    braceFree (get_method_tests t st mn raw) := by
  have s1 := templateOK_replaceAll methodsTestsTokNames (by decide) t.methodsTestsT hT
    "method_name".data mn (by decide) h1
  have s2 := templateOK_replaceAll _ (by decide) _ s1
    "class_file".data st.name_file (by decide) h2
  have s3 := templateOK_replaceAll _ (by decide) _ s2
    "class_name".data st.name_class (by decide) h3
  have s4 := templateOK_replaceAll _ (by decide) _ s3
    "params".data (testParamsString raw) (by decide) h4
  have hnil : ((((methodsTestsTokNames.filter fun m => m ≠ "method_name".data).filter
      fun m => m ≠ "class_file".data).filter
      fun m => m ≠ "class_name".data).filter
      fun m => m ≠ "params".data) = [] := by decide
  rw [hnil] at s4
  exact braceFree_of_templateOK_nil s4

theorem braceFree_get_class_tests {t : Templates} {st : GenState} {mft : Str}
    (hT : TemplateOK testsTokNames t.testsT) (h1 : braceFree st.name_class)
    (h2 : braceFree mft) (h3 : braceFree st.name_file) :
    braceFree (get_class_tests t st mft) := by
  have s1 := templateOK_replaceAll testsTokNames (by decide) t.testsT hT
    "class_name".data st.name_class (by decide) h1
  have s2 := templateOK_replaceAll _ (by decide) _ s1
    "methods_for_tests".data mft (by decide) h2
  have s3 := templateOK_replaceAll _ (by decide) _ s2
    "file_name".data st.name_file (by decide) h3
  have hnil : (((testsTokNames.filter fun m => m ≠ "class_name".data).filter
      fun m => m ≠ "methods_for_tests".data).filter
      fun m => m ≠ "file_name".data) = [] := by decide
  rw [hnil] at s3
  exact braceFree_of_templateOK_nil s3

theorem braceFree_nameClass {f : Str} (h : braceFree f) :
    braceFree (nameClass f) := by
  apply braceFree_flatten
  intro x hx
  obtain ⟨seg, hseg, rfl⟩ := List.mem_map.mp hx
  exact braceFree_pyCapitalize
    (braceFree_mono (fun c hc => mem_pySplit hseg hc) h)

theorem braceFree_get_attributes_strings {attrs : List (Str × Str)}
    (h : ∀ p ∈ attrs, braceFree p.1 ∧ braceFree p.2) :
    braceFree (get_attributes_strings attrs).1 ∧
    braceFree (get_attributes_strings attrs).2.1 ∧
    braceFree (get_attributes_strings attrs).2.2 := by
  have dOpen : braceFree " (".data := by decide
  have dClose : braceFree "): ".data := by decide
  have dDesc : braceFree descAttr := by decide
  have dComma : braceFree ",\n".data := by decide
  have dColon : braceFree ": ".data := by decide
  have dSelf : braceFree "self._".data := by decide
  have dEq : braceFree " = ".data := by decide
  refine ⟨?_, ?_, ?_⟩
  · apply braceFree_joinSep (by decide)
    intro x hx
    obtain ⟨p, hp, rfl⟩ := List.mem_map.mp hx
    exact braceFree_append (braceFree_append (braceFree_append (braceFree_append
      (braceFree_append (braceFree_setTab 3) (h p hp).1) dOpen) (h p hp).2)
      dClose) dDesc
  · apply braceFree_flatten
    intro x hx
    obtain ⟨p, hp, rfl⟩ := List.mem_map.mp hx
    exact braceFree_append (braceFree_append (braceFree_append (braceFree_append
      dComma (braceFree_setTab 2)) (h p hp).1) dColon) (h p hp).2
  · apply braceFree_joinSep (by decide)
    intro x hx
    obtain ⟨p, hp, rfl⟩ := List.mem_map.mp hx
    exact braceFree_append (braceFree_append (braceFree_append (braceFree_append
      (braceFree_append (braceFree_append (braceFree_setTab 2) dSelf) (h p hp).1)
      dColon) (h p hp).2) dEq) (h p hp).1

theorem braceFree_get_class {t : Templates} {st : GenState}
    (hT : TemplateOK classTokNames t.classT) (h1 : braceFree st.name_class)
    (h2 : ∀ p ∈ st.attributes, braceFree p.1 ∧ braceFree p.2) :
    braceFree (get_class t st) := by
  obtain ⟨b1, b2, b3⟩ := braceFree_get_attributes_strings h2
  exact braceFree_get_class_chain hT h1 b2 b1 b3

theorem mem_dictInsert {α : Type} {k : Str} {v : α} {acc : List (Str × α)}
    {e : Str × α} (h : e ∈ dictInsert k v acc) : e = (k, v) ∨ e ∈ acc := by
  induction acc with
  | nil =>
    rw [dictInsert] at h
    rw [List.mem_singleton] at h
    exact Or.inl h
  | cons kv rest ih =>
    obtain ⟨k', v'⟩ := kv
    rw [dictInsert] at h
    by_cases hk : k' = k
    · rw [if_pos hk] at h
      rcases List.mem_cons.mp h with rfl | hmem
      · exact Or.inl (by rw [hk])
      · exact Or.inr (List.mem_cons_of_mem _ hmem)
    · rw [if_neg hk] at h
      rcases List.mem_cons.mp h with rfl | hmem
      · exact Or.inr (List.mem_cons_self _ _)
      · rcases ih hmem with h1 | h1
        · exact Or.inl h1
        · exact Or.inr (List.mem_cons_of_mem _ h1)

theorem dictLookup_mem {α : Type} {k : Str} {d : List (Str × α)} {v : α}
    (h : dictLookup k d = some v) : (k, v) ∈ d := by
  induction d with
  | nil => cases h
  | cons kv rest ih =>
    obtain ⟨k', v'⟩ := kv
    rw [dictLookup] at h
    by_cases hk : k' = k
    · rw [if_pos hk] at h
      injection h with hv
      subst hk
      subst hv
      exact List.mem_cons_self _ _
    · rw [if_neg hk] at h
      exact List.mem_cons_of_mem _ (ih h)

theorem parseParam_braceFree {p : Str} {e : Str × (Str × Option Str)}
    (hp : braceFree p) (h : parseParam p = some e) :
    braceFree e.1 ∧ braceFree e.2.1 := by
  simp only [parseParam] at h
  cases hcol : (pySplit ':' p).get? 1 with
  | none =>
    rw [hcol] at h
    cases h
  | some afterColon =>
    rw [hcol] at h
    simp only [Option.some.injEq] at h
    subst h
    refine ⟨?_, ?_⟩
    · apply braceFree_pyStrip
      apply braceFree_mono _ hp
      intro c hc
      exact mem_pySplit (headD_mem (pySplit_ne_nil ':' p)) hc
    · apply braceFree_pyStrip
      apply braceFree_mono _ hp
      intro c hc
      have h1 : (pySplit '=' afterColon).headD [] ∈ pySplit '=' afterColon :=
        headD_mem (pySplit_ne_nil '=' afterColon)
      have h2 : c ∈ afterColon := mem_pySplit h1 hc
      have h3 : afterColon ∈ pySplit ':' p := List.get?_mem hcol
      exact mem_pySplit h3 h2

theorem methodsDictionaryGo_entries : ∀ (ps : List Str)
    (acc d : List (Str × (Str × Option Str))),
    methodsDictionaryGo acc ps = some d →
    ∀ e ∈ d, e ∈ acc ∨ ∃ p ∈ ps, parseParam p = some e := by
  intro ps
  induction ps with
  | nil =>
    intro acc d h e he
    rw [methodsDictionaryGo] at h
    injection h with h
    subst h
    exact Or.inl he
  | cons p rest ih =>
    intro acc d h e he
    cases hp : parseParam p with
    | none =>
      rw [methodsDictionaryGo, hp] at h
      cases h
    | some ntv =>
      obtain ⟨n, tv⟩ := ntv
      rw [methodsDictionaryGo, hp] at h
      rcases ih _ d h e he with hacc | ⟨q, hq, hparse⟩
      · rcases mem_dictInsert hacc with rfl | hacc'
        · exact Or.inr ⟨p, List.mem_cons_self p rest, hp⟩
        · exact Or.inl hacc'
      · exact Or.inr ⟨q, List.mem_cons_of_mem p hq, hparse⟩

theorem get_methods_dictionary_entries {ps : List Str}
    {d : List (Str × (Str × Option Str))} (h : get_methods_dictionary ps = some d) :
    ∀ e ∈ d, ∃ p ∈ ps, parseParam p = some e := by
  intro e he
  rcases methodsDictionaryGo_entries ps [] d h e he with hacc | hex
  · cases hacc
  · exact hex

theorem get_methods_dictionary_braceFree {ps : List Str}
    {d : List (Str × (Str × Option Str))} (hps : ∀ p ∈ ps, braceFree p)
    (h : get_methods_dictionary ps = some d) :
    ∀ e ∈ d, braceFree e.1 ∧ braceFree e.2.1 := by
  intro e he
  obtain ⟨p, hp, hparse⟩ := get_methods_dictionary_entries h e he
  exact parseParam_braceFree (hps p hp) hparse

theorem dropLast_mem {α : Type} {l : List α} {x : α} (h : x ∈ l.dropLast) :
    x ∈ l := by
  rw [List.dropLast_eq_take] at h
  exact List.take_subset _ _ h

theorem get_methods_strings_braceFree {ps : List Str} {ms : MethodStrings}
    (hps : ∀ p ∈ ps, braceFree p) (h : get_methods_strings ps = some ms) :
    braceFree ms.method_params_list ∧ braceFree ms.return_type ∧
    braceFree ms.params_docstring ∧ braceFree ms.returns_string := by
  simp only [get_methods_strings] at h
  cases hd : get_methods_dictionary ps with
  | none =>
    rw [hd] at h
    cases h
  | some d =>
    rw [hd] at h
    simp only [Option.some.injEq] at h
    subst h
    have hbf := get_methods_dictionary_braceFree hps hd
    have hrt : braceFree (match dictLookup "return".data d with
        | some tv => tv.1
        | none => "None".data) := by
      cases hl : dictLookup "return".data d with
      | none =>
        show braceFree "None".data
        decide
      | some tv =>
        show braceFree tv.1
        exact (hbf ("return".data, tv) (dictLookup_mem hl)).2
    refine ⟨?_, hrt, ?_, ?_⟩
    · show braceFree (joinSep (',' :: '\n' :: setTab 2) (ps.dropLast.map pyStrip))
      apply braceFree_joinSep
        (braceFree_cons (by decide) (by decide)
          (braceFree_cons (by decide) (by decide) (braceFree_setTab 2)))
      intro x hx
      obtain ⟨q, hq, rfl⟩ := List.mem_map.mp hx
      exact braceFree_pyStrip (hps q (dropLast_mem hq))
    · show braceFree (joinSep ('\n' :: setTab 3) _)
      apply braceFree_joinSep
        (braceFree_cons (by decide) (by decide) (braceFree_setTab 3))
      intro x hx
      obtain ⟨kv, hkv, rfl⟩ := List.mem_map.mp hx
      have hkvd : kv ∈ d := List.mem_of_mem_filter hkv
      have hOpen : braceFree " (".data := by decide
      have hClose : braceFree "): ".data := by decide
      have hMsg : braceFree msgDesc := by decide
      exact braceFree_append (braceFree_append (braceFree_append
        (braceFree_append (hbf kv hkvd).1 hOpen) (hbf kv hkvd).2) hClose) hMsg
    · have hgoal : braceFree (if (match dictLookup "return".data d with
          | some tv => tv.1
          | none => "None".data) ≠ "None".data then
            "\n\n".data ++ setTab 2 ++ "Returns:\n".data ++ setTab 3 ++
              (match dictLookup "return".data d with
                | some tv => tv.1
                | none => "None".data) ++ ": ".data ++ msgDesc
          else []) := by
        by_cases hcond : (match dictLookup "return".data d with
          | some tv => tv.1
          | none => "None".data) ≠ "None".data
        · rw [if_pos hcond]
          have hNl : braceFree "\n\n".data := by decide
          have hRet : braceFree "Returns:\n".data := by decide
          have hColon : braceFree ": ".data := by decide
          have hMsg : braceFree msgDesc := by decide
          exact braceFree_append (braceFree_append (braceFree_append
            (braceFree_append (braceFree_append (braceFree_append hNl
              (braceFree_setTab 2)) hRet) (braceFree_setTab 3)) hrt) hColon) hMsg
        · rw [if_neg hcond]
          exact braceFree_nil
      exact hgoal

theorem braceFree_testParamsString {raw : Str} (h : braceFree raw) :
    braceFree (testParamsString raw) := by
  apply braceFree_joinSep (by decide)
  intro x hx
  obtain ⟨q, hq, rfl⟩ := List.mem_map.mp hx
  apply braceFree_mono _ h
  intro c hc
  exact mem_pySplit (dropLast_mem hq)
    (mem_pySplit (headD_mem (pySplit_ne_nil ':' q)) hc)

theorem braceFree_get_method {t : Templates} {mn : Str} {ps : List Str} {out : Str}
    (hT : TemplateOK methodsTokNames t.methodsT) (hmn : braceFree mn)
    (hps : ∀ p ∈ ps, braceFree p) (h : get_method t mn ps = some out) :
    braceFree out := by
  simp only [get_method] at h
  cases hms : get_methods_strings ps with
  | none =>
    rw [hms] at h
    cases h
  | some ms =>
    rw [hms] at h
    simp only [Option.some.injEq] at h
    subst h
    obtain ⟨b1, b2, b3, b4⟩ := get_methods_strings_braceFree hps hms
    exact braceFree_get_method_chain hT hmn b1 b2 b3 b4

theorem renderMethodBlocks_braceFree {t : Templates} {methods : List (Str × Str)}
    {blocks : List Str} (hT : TemplateOK methodsTokNames t.methodsT)
    (hm : ∀ m ∈ methods, braceFree m.1 ∧ braceFree m.2)
    (h : renderMethodBlocks t methods = some blocks) :
    ∀ b ∈ blocks, braceFree b := by
  induction methods generalizing blocks with
  | nil =>
    rw [renderMethodBlocks] at h
    injection h with h
    subst h
    intro b hb
    cases hb
  | cons m rest ih =>
    rw [renderMethodBlocks] at h
    cases hgm : get_method t m.1 (pySplit ',' m.2) with
    | none =>
      rw [hgm] at h
      cases h
    | some b0 =>
      rw [hgm] at h
      cases hrest : renderMethodBlocks t rest with
      | none =>
        rw [hrest] at h
        cases h
      | some bs =>
        rw [hrest] at h
        simp only [Option.some.injEq] at h
        subst h
        intro b hb
        rcases List.mem_cons.mp hb with rfl | hb
        · have htok : ∀ p ∈ pySplit ',' m.2, braceFree p := by
            intro p hp
            exact braceFree_mono (fun c hc => mem_pySplit hp hc)
              (hm m (List.mem_cons_self m rest)).2
          exact braceFree_get_method hT (hm m (List.mem_cons_self m rest)).1 htok hgm
        · exact ih (fun q hq => hm q (List.mem_cons_of_mem m hq)) hrest b hb

/-!
The write run of `_gen_class` versus the complete render.
-/

theorem runMethods_of_blocks {t : Templates} : ∀ (ms : List (Str × Str))
    (acc : Str) (blocks : List Str), renderMethodBlocks t ms = some blocks →
    runMethods t acc ms = (acc ++ blocks.flatten, true) := by
  intro ms
  induction ms with
  | nil =>
    intro acc blocks h
    rw [renderMethodBlocks] at h
    injection h with h
    subst h
    simp [runMethods]
  | cons m rest ih =>
    intro acc blocks h
    rw [renderMethodBlocks] at h
    cases hgm : get_method t m.1 (pySplit ',' m.2) with
    | none =>
      rw [hgm] at h
      cases h
    | some b0 =>
      rw [hgm] at h
      cases hrest : renderMethodBlocks t rest with
      | none =>
        rw [hrest] at h
        cases h
      | some bs =>
        rw [hrest] at h
        simp only [Option.some.injEq] at h
        subst h
        rw [runMethods, hgm]
        show runMethods t (acc ++ b0) rest = _
        rw [ih (acc ++ b0) bs hrest]
        simp

theorem runMethods_of_none {t : Templates} : ∀ (ms : List (Str × Str)) (acc : Str),
    renderMethodBlocks t ms = none → (runMethods t acc ms).2 = false := by
  intro ms
  induction ms with
  | nil =>
    intro acc h
    cases h
  | cons m rest ih =>
    intro acc h
    rw [renderMethodBlocks] at h
    cases hgm : get_method t m.1 (pySplit ',' m.2) with
    | none =>
      rw [runMethods, hgm]
    | some b0 =>
      rw [hgm] at h
      cases hrest : renderMethodBlocks t rest with
      | none =>
        rw [runMethods, hgm]
        exact ih (acc ++ b0) hrest
      | some bs =>
        rw [hrest] at h
        cases h

theorem renderMethodBlocks_none_iff {t : Templates} : ∀ (ms : List (Str × Str)),
    renderMethodBlocks t ms = none ↔
      ∃ m ∈ ms, get_method t m.1 (pySplit ',' m.2) = none := by
  intro ms
  induction ms with
  | nil =>
    rw [renderMethodBlocks]
    simp
  | cons m rest ih =>
    rw [renderMethodBlocks]
    cases hgm : get_method t m.1 (pySplit ',' m.2) with
    | none =>
      simp only [true_iff]
      exact ⟨m, List.mem_cons_self m rest, hgm⟩
    | some b0 =>
      cases hrest : renderMethodBlocks t rest with
      | none =>
        simp only [true_iff]
        obtain ⟨q, hq, hqn⟩ := ih.mp hrest
        exact ⟨q, List.mem_cons_of_mem m hq, hqn⟩
      | some bs =>
        constructor
        · intro h
          cases h
        · intro hex
          obtain ⟨q, hq, hqn⟩ := hex
          rcases List.mem_cons.mp hq with rfl | hq
          · rw [hgm] at hqn
            cases hqn
          · have hcontra : renderMethodBlocks t rest = none := ih.mpr ⟨q, hq, hqn⟩
            rw [hrest] at hcontra
            cases hcontra

/-!
Building the parameter dict under the trailing-return convention.
-/

/-- All parameter tokens parsed in order, when every one parses. -/
def parsedAll : List Str → Option (List (Str × (Str × Option Str)))
  | [] => some []
  | p :: rest =>
    match parseParam p, parsedAll rest with
    | some e, some es => some (e :: es)
    | _, _ => none

theorem dictInsert_fresh {α : Type} {k : Str} {v : α} {acc : List (Str × α)}
    (h : ∀ a ∈ acc, a.1 ≠ k) : dictInsert k v acc = acc ++ [(k, v)] := by
  induction acc with
  | nil => rfl
  | cons a rest ih =>
    obtain ⟨k', v'⟩ := a
    rw [dictInsert]
    rw [if_neg (h (k', v') (List.mem_cons_self _ _))]
    rw [ih fun a ha => h a (List.mem_cons_of_mem _ ha)]
    rfl

theorem methodsDictionaryGo_eq : ∀ (toks : List Str)
    (entries acc : List (Str × (Str × Option Str))),
    parsedAll toks = some entries →
    (∀ e ∈ entries, ∀ a ∈ acc, a.1 ≠ e.1) →
    (entries.map Prod.fst).Nodup →
    methodsDictionaryGo acc toks = some (acc ++ entries) := by
  intro toks
  induction toks with
  | nil =>
    intro entries acc hp _ _
    rw [parsedAll] at hp
    injection hp with hp
    subst hp
    rw [methodsDictionaryGo]
    simp
  | cons p rest ih =>
    intro entries acc hp hfresh hnodup
    rw [parsedAll] at hp
    cases hpp : parseParam p with
    | none =>
      rw [hpp] at hp
      cases hp
    | some e =>
      obtain ⟨n, tv⟩ := e
      rw [hpp] at hp
      cases hrest : parsedAll rest with
      | none =>
        rw [hrest] at hp
        cases hp
      | some es =>
        rw [hrest] at hp
        simp only [Option.some.injEq] at hp
        subst hp
        rw [methodsDictionaryGo, hpp]
        have hins : dictInsert n tv acc = acc ++ [(n, tv)] :=
          dictInsert_fresh fun a ha =>
            hfresh (n, tv) (List.mem_cons_self _ _) a ha
        show methodsDictionaryGo (dictInsert n tv acc) rest = _
        rw [hins]
        have hnodup' : (es.map Prod.fst).Nodup := by
          rw [List.map_cons, List.nodup_cons] at hnodup
          exact hnodup.2
        have hn_not : n ∉ es.map Prod.fst := by
          rw [List.map_cons, List.nodup_cons] at hnodup
          exact hnodup.1
        have hfresh' : ∀ e ∈ es, ∀ a ∈ acc ++ [(n, tv)], a.1 ≠ e.1 := by
          intro e he a ha
          rcases List.mem_append.mp ha with ha | ha
          · exact hfresh e (List.mem_cons_of_mem _ he) a ha
          · rw [List.mem_singleton] at ha
            subst ha
            intro hcontra
            have hmem : e.1 ∈ es.map Prod.fst := List.mem_map_of_mem Prod.fst he
            rw [← hcontra] at hmem
            exact hn_not hmem
        rw [ih es (acc ++ [(n, tv)]) hrest hfresh' hnodup']
        simp

theorem get_methods_dictionary_eq {toks : List Str}
    {entries : List (Str × (Str × Option Str))}
    (hp : parsedAll toks = some entries) (hnodup : (entries.map Prod.fst).Nodup) :
    get_methods_dictionary toks = some entries := by
  have := methodsDictionaryGo_eq toks entries [] hp (by intro e _ a ha; cases ha) hnodup
  rw [get_methods_dictionary, this]
  simp

theorem dictLookup_append_right {α : Type} {k : Str} {d1 : List (Str × α)} {v : α}
    (h : ∀ a ∈ d1, a.1 ≠ k) : dictLookup k (d1 ++ [(k, v)]) = some v := by
  induction d1 with
  | nil =>
    rw [List.nil_append, dictLookup]
    rw [if_pos rfl]
  | cons a rest ih =>
    obtain ⟨k', v'⟩ := a
    rw [List.cons_append, dictLookup]
    rw [if_neg (h (k', v') (List.mem_cons_self _ _))]
    exact ih fun a ha => h a (List.mem_cons_of_mem _ ha)

theorem splitFirst_not_mem {sep : Char} {l : Str} (h : sep ∉ l) :
    splitFirst sep l = (l, none) := by
  induction l with
  | nil => rfl
  | cons c rest ih =>
    have hc : ¬ c = sep := fun hcs => h (hcs ▸ List.mem_cons_self c rest)
    have hrest : sep ∉ rest := fun hs => h (List.mem_cons_of_mem c hs)
    simp only [splitFirst, if_neg hc, ih hrest]

theorem splitFirst_append {sep : Char} {a b : Str} (h : sep ∉ a) :
    splitFirst sep (a ++ sep :: b) = (a, some b) := by
  induction a with
  | nil => simp [splitFirst]
  | cons c a' ih =>
    have hc : ¬ c = sep := fun hcs => h (hcs ▸ List.mem_cons_self c a')
    have ha' : sep ∉ a' := fun hs => h (List.mem_cons_of_mem c hs)
    simp only [List.cons_append, splitFirst, if_neg hc, List.append_eq, ih ha']

theorem count_cons_ne {l : Str} {a b : Char} (h : a ≠ b) :
    (b :: l).count a = l.count a := by
  rw [List.count_cons]
  have hba : (b == a) = false := beq_eq_false_iff_ne.mpr fun hx => h hx.symm
  rw [hba]
  simp

theorem parseParam_agrees {tok : Str} (h1 : tok.count ':' = 1)
    (h2 : tok.count '=' ≤ 1) : parseParam tok = specParseParam tok := by
  obtain ⟨a, b, rfl, ha, hb⟩ := count_eq_one_decomp h1
  have hsplit : pySplit ':' (a ++ ':' :: b) = [a, b] := by
    rw [pySplit_append ha, pySplit_not_mem hb]
  have hsf : splitFirst ':' (a ++ ':' :: b) = (a, some b) := splitFirst_append ha
  have hcb : b.count '=' ≤ 1 := by
    rw [List.count_append, count_cons_ne (by decide)] at h2
    omega
  rcases Nat.le_one_iff_eq_zero_or_eq_one.mp hcb with hc0 | hc1
  · have hbne : '=' ∉ b := List.count_eq_zero.mp hc0
    have hsplitEq : pySplit '=' b = [b] := pySplit_not_mem hbne
    have hsfEq : splitFirst '=' b = (b, none) := splitFirst_not_mem hbne
    simp [parseParam, specParseParam, hsplit, hsf, hsplitEq, hsfEq]
  · obtain ⟨x, y, rfl, hx, hy⟩ := count_eq_one_decomp hc1
    have hsplitEq : pySplit '=' (x ++ '=' :: y) = [x, y] := by
      rw [pySplit_append hx, pySplit_not_mem hy]
    have hsfEq : splitFirst '=' (x ++ '=' :: y) = (x, some y) := splitFirst_append hx
    have hif : (if y = [] then y else pyStrip y) = pyStrip y := by
      by_cases hyy : y = []
      · rw [if_pos hyy, hyy]
        rfl
      · rw [if_neg hyy]
    simp [parseParam, specParseParam, hsplit, hsf, hsplitEq, hsfEq, hif]

theorem parseParam_name {p : Str} {e : Str × (Str × Option Str)}
    (h : parseParam p = some e) :
    e.1 = pyStrip ((pySplit ':' p).headD []) := by
  simp only [parseParam] at h
  cases hcol : (pySplit ':' p).get? 1 with
  | none =>
    rw [hcol] at h
    cases h
  | some afterColon =>
    rw [hcol] at h
    simp only [Option.some.injEq] at h
    subst h
    rfl

theorem parsedAll_names : ∀ {toks : List Str}
    {entries : List (Str × (Str × Option Str))}, parsedAll toks = some entries →
    entries.map Prod.fst = toks.map fun p => pyStrip ((pySplit ':' p).headD []) := by
  intro toks
  induction toks with
  | nil =>
    intro entries h
    rw [parsedAll] at h
    injection h with h
    subst h
    rfl
  | cons p rest ih =>
    intro entries h
    rw [parsedAll] at h
    cases hpp : parseParam p with
    | none =>
      rw [hpp] at h
      cases h
    | some e =>
      rw [hpp] at h
      cases hrest : parsedAll rest with
      | none =>
        rw [hrest] at h
        cases h
      | some es =>
        rw [hrest] at h
        simp only [Option.some.injEq] at h
        subst h
        rw [List.map_cons, List.map_cons, ih hrest, parseParam_name hpp]

theorem parsedAll_append_single {toks : List Str}
    {entries : List (Str × (Str × Option Str))} {ret : Str}
    {e : Str × (Str × Option Str)} (h1 : parsedAll toks = some entries)
    (h2 : parseParam ret = some e) :
    parsedAll (toks ++ [ret]) = some (entries ++ [e]) := by
  induction toks generalizing entries with
  | nil =>
    rw [parsedAll] at h1
    injection h1 with h1
    subst h1
    rw [List.nil_append, parsedAll, h2, parsedAll]
    rfl
  | cons p rest ih =>
    rw [parsedAll] at h1
    cases hpp : parseParam p with
    | none =>
      rw [hpp] at h1
      cases h1
    | some e0 =>
      rw [hpp] at h1
      cases hrest : parsedAll rest with
      | none =>
        rw [hrest] at h1
        cases h1
      | some es =>
        rw [hrest] at h1
        simp only [Option.some.injEq] at h1
        subst h1
        rw [List.cons_append, parsedAll, hpp, ih hrest]
        rfl

/-!
The claims.
-/

/-- C1 counterexample: on the stem `fooBar` the code lower-cases the later
characters of the segment (`Foobar`), while the claim's rule (capitalize only
the first character, leave every other character untouched) yields `FooBar`. -/
theorem C1_counterexample :
    nameClass "fooBar".data = "Foobar".data ∧
    specDeriveClassName "fooBar".data = "FooBar".data ∧
    nameClass "fooBar".data ≠ specDeriveClassName "fooBar".data := by
  decide

/-- C1 (amended): the derived class name splits the stem on underscore,
upper-cases the first character of each segment and lower-cases every
remaining character of the segment, then concatenates with no separator;
the empty stem yields the empty string and underscore-only stems contribute
nothing. -/
theorem C1_class_name_derivation :
    (∀ s : Str, nameClass s =
      ((pySplit '_' s).map fun seg =>
        match seg with
        | [] => ([] : Str)
        | c :: cs => c.toUpper :: cs.map Char.toLower).flatten) ∧
    nameClass "foo".data = "Foo".data ∧
    nameClass "foo_bar".data = "FooBar".data ∧
    nameClass "fooBAR".data = "Foobar".data ∧
    nameClass [] = [] ∧
    nameClass "a__b".data = "AB".data ∧
    nameClass "___".data = [] := by
  refine ⟨fun s => rfl, by decide, by decide, by decide, by decide, by decide,
    by decide⟩

/-- C2: when a method's raw parameter-list string splits on the comma into
`n` tokens, `n` is at least one, the `method_params` string joins exactly the
first `n - 1` stripped tokens, and a single-token list yields the empty
parameter rendering. -/
theorem C2_method_params_substitution :
    ∀ (raw : Str) (ms : MethodStrings),
      get_methods_strings (pySplit ',' raw) = some ms →
      1 ≤ (pySplit ',' raw).length ∧
      ms.method_params_list = joinSep (',' :: '\n' :: setTab 2)
        (((pySplit ',' raw).take ((pySplit ',' raw).length - 1)).map pyStrip) ∧
      ((pySplit ',' raw).length = 1 → ms.method_params_list = []) := by
  intro raw ms h
  have hfield : ms.method_params_list =
      joinSep (',' :: '\n' :: setTab 2) ((pySplit ',' raw).dropLast.map pyStrip) := by
    simp only [get_methods_strings] at h
    cases hd : get_methods_dictionary (pySplit ',' raw) with
    | none =>
      rw [hd] at h
      cases h
    | some d =>
      rw [hd] at h
      simp only [Option.some.injEq] at h
      subst h
      rfl
  refine ⟨List.length_pos.mpr (pySplit_ne_nil ',' raw), ?_, ?_⟩
  · rw [hfield, List.dropLast_eq_take]
  · intro hlen
    rw [hfield]
    have hdrop : (pySplit ',' raw).dropLast = [] := by
      rw [List.dropLast_eq_take, hlen]
      simp
    rw [hdrop]
    rfl

/-- C2 witness: the two-token list `a: int, return: float` renders exactly
its first token, `a: int`, as the signature parameters. -/
theorem C2_method_params_substitution_witness :
    get_methods_strings (pySplit ',' "a: int, return: float".data) =
      some ⟨"a: int".data, "float".data,
        "a (int): Explain this...".data,
        "\n\n".data ++ setTab 2 ++ "Returns:\n".data ++ setTab 3 ++
          "float".data ++ ": ".data ++ msgDesc⟩ ∧
    ("a: int".data : Str) = joinSep (',' :: '\n' :: setTab 2)
      (((pySplit ',' "a: int, return: float".data).take
        ((pySplit ',' "a: int, return: float".data).length - 1)).map pyStrip) := by
  have hsome : get_methods_strings (pySplit ',' "a: int, return: float".data) =
      some ⟨"a: int".data, "float".data,
        "a (int): Explain this...".data,
        "\n\n".data ++ setTab 2 ++ "Returns:\n".data ++ setTab 3 ++
          "float".data ++ ": ".data ++ msgDesc⟩ := by decide
  exact ⟨hsome,
    (C2_method_params_substitution "a: int, return: float".data _ hsome).2.1⟩

/-- C3 counterexample: on the token `d: Dict[int:str]` the code splits on
every colon and keeps only the text between the first and second colon as
the type (`Dict[int`), while the claim's first-colon rule yields
`Dict[int:str]`. -/
theorem C3_counterexample :
    parseParam "d: Dict[int:str]".data =
      some ("d".data, ("Dict[int".data, none)) ∧
    specParseParam "d: Dict[int:str]".data =
      some ("d".data, ("Dict[int:str]".data, none)) ∧
    parseParam "d: Dict[int:str]".data ≠ specParseParam "d: Dict[int:str]".data := by
  decide

/-- C3 (amended): the parser splits the token on every colon and keeps the
first two fields, and splits the piece after the first colon on every equals
sign; on tokens with exactly one colon and at most one equals sign this
coincides with the claim's split-on-first rule, the two spec examples parse
as stated, and the default is absent exactly when the piece between the
first and second colon contains no equals sign. -/
theorem C3_parameter_token_parsing :
    (∀ tok : Str, tok.count ':' = 1 → tok.count '=' ≤ 1 →
      parseParam tok = specParseParam tok) ∧
    parseParam "x: int = 5".data = some ("x".data, ("int".data, some "5".data)) ∧
    parseParam "y: str".data = some ("y".data, ("str".data, none)) ∧
    (∀ (tok afterColon : Str) (r : Str × (Str × Option Str)),
      parseParam tok = some r → (pySplit ':' tok).get? 1 = some afterColon →
      (r.2.2 = none ↔ '=' ∉ afterColon)) := by
  refine ⟨fun tok h1 h2 => parseParam_agrees h1 h2, by decide, by decide, ?_⟩
  intro tok afterColon r h hcol
  simp only [parseParam] at h
  rw [hcol] at h
  simp only [Option.some.injEq] at h
  subst h
  show (match (pySplit '=' afterColon).get? 1 with
    | none => none
    | some d => some (if d = [] then d else pyStrip d)) = none ↔ '=' ∉ afterColon
  cases hg : (pySplit '=' afterColon).get? 1 with
  | none =>
    simp only [true_iff]
    exact pySplit_get1_none_iff.mp hg
  | some d =>
    have hmem : '=' ∈ afterColon := by
      by_contra hno
      have hnone := pySplit_get1_none_iff.mpr hno
      rw [hg] at hnone
      cases hnone
    constructor
    · intro hx
      cases hx
    · intro hx
      exact absurd hmem hx

/-- C3 witness: `x: int = 5` has one colon and one equals sign, so the code's
parse agrees with the first-split parse, and its default is present while the
rest piece does contain an equals sign. -/
theorem C3_parameter_token_parsing_witness :
    parseParam "x: int = 5".data = specParseParam "x: int = 5".data ∧
    ((some "5".data : Option Str) = none ↔ '=' ∉ " int = 5".data) := by
  have h1 := C3_parameter_token_parsing.1 "x: int = 5".data (by decide) (by decide)
  have h4 := C3_parameter_token_parsing.2.2.2 "x: int = 5".data " int = 5".data
    ("x".data, ("int".data, some "5".data)) (by decide) (by decide)
  exact ⟨h1, h4⟩

/-- C4 counterexample: for the parameter list `a: int, b: str` (no trailing
`return` token) the docstring documents both `a` and `b`, yet the signature
renders only the first token `a: int`; the documented set and the rendered
set differ. -/
theorem C4_counterexample :
    docParamNames (pySplit ',' "a: int, b: str".data) =
      some ["a".data, "b".data] ∧
    sigParamNames (pySplit ',' "a: int, b: str".data) = ["a".data] ∧
    docParamNames (pySplit ',' "a: int, b: str".data) ≠
      some (sigParamNames (pySplit ',' "a: int, b: str".data)) ∧
    (get_methods_strings (pySplit ',' "a: int, b: str".data)).map
      MethodStrings.params_docstring =
      some ("a (int): Explain this...".data ++ ('\n' :: setTab 3) ++
        "b (str): Explain this...".data) ∧
    (get_methods_strings (pySplit ',' "a: int, b: str".data)).map
      MethodStrings.method_params_list = some "a: int".data := by
  decide

/-- C4 (amended): the docstring documents one line per entry of the parsed
dict built from all tokens, excluding entries keyed `return` wherever they
occur; this coincides with the signature's parameter names exactly under the
trailing-return convention, when every non-final token parses to a name
other than `return` and the names are distinct. -/
theorem C4_params_docstring_names :
    (∀ (ps : List Str) (ms : MethodStrings) (d : List (Str × (Str × Option Str))),
      get_methods_strings ps = some ms → get_methods_dictionary ps = some d →
      ms.params_docstring = joinSep ('\n' :: setTab 3)
        ((d.filter fun kv => kv.1 ≠ "return".data).map
          fun kv => kv.1 ++ " (".data ++ kv.2.1 ++ "): ".data ++ msgDesc)) ∧
    (∀ (toks : List Str) (ret : Str) (entries : List (Str × (Str × Option Str)))
      (rtv : Str × Option Str),
      parsedAll toks = some entries →
      parseParam ret = some ("return".data, rtv) →
      (entries.map Prod.fst).Nodup →
      "return".data ∉ entries.map Prod.fst →
      docParamNames (toks ++ [ret]) = some (sigParamNames (toks ++ [ret]))) := by
  constructor
  · intro ps ms d hms hd
    simp only [get_methods_strings] at hms
    rw [hd] at hms
    simp only [Option.some.injEq] at hms
    subst hms
    rfl
  · intro toks ret entries rtv h1 h2 hnodup hnotin
    have hall : parsedAll (toks ++ [ret]) =
        some (entries ++ [("return".data, rtv)]) :=
      parsedAll_append_single h1 h2
    have hnames : (entries ++ [("return".data, rtv)]).map Prod.fst =
        entries.map Prod.fst ++ ["return".data] := by
      rw [List.map_append]
      rfl
    have hnodup' : ((entries ++ [("return".data, rtv)]).map Prod.fst).Nodup := by
      rw [hnames]
      rw [List.nodup_append]
      refine ⟨hnodup, List.nodup_singleton _, ?_⟩
      intro a ha hb
      rw [List.mem_singleton] at hb
      subst hb
      exact hnotin ha
    have hdict : get_methods_dictionary (toks ++ [ret]) =
        some (entries ++ [("return".data, rtv)]) :=
      get_methods_dictionary_eq hall hnodup'
    have hfilter : ((entries ++ [("return".data, rtv)]).filter
        fun kv => kv.1 ≠ "return".data) = entries := by
      rw [List.filter_append]
      have he : (entries.filter fun kv => kv.1 ≠ "return".data) = entries := by
        rw [List.filter_eq_self]
        intro kv hkv
        have : kv.1 ≠ "return".data := by
          intro hcontra
          exact hnotin (hcontra ▸ List.mem_map_of_mem Prod.fst hkv)
        exact decide_eq_true this
      have hr : (([("return".data, rtv)] : List (Str × (Str × Option Str))).filter
          fun kv => kv.1 ≠ "return".data) = [] := by
        simp
      rw [he, hr]
      simp
    have hsig : sigParamNames (toks ++ [ret]) =
        toks.map fun p => pyStrip ((pySplit ':' p).headD []) := by
      rw [sigParamNames]
      have hdl : (toks ++ [ret]).dropLast = toks := by simp
      rw [hdl]
    rw [docParamNames, hdict]
    simp only [Option.map_some']
    rw [hfilter, hsig, parsedAll_names h1]

/-- C4 witness: for the conventional list `a: int, return: None` the
documented names equal the rendered signature names, and the docstring is
one line for `a`. -/
theorem C4_params_docstring_names_witness :
    docParamNames ["a: int".data, " return: None".data] =
      some (sigParamNames ["a: int".data, " return: None".data]) ∧
    ("a (int): Explain this...".data : Str) = joinSep ('\n' :: setTab 3)
      ((([("a".data, ("int".data, (none : Option Str))),
          ("return".data, ("None".data, (none : Option Str)))].filter
        fun kv => kv.1 ≠ "return".data).map
          fun kv => kv.1 ++ " (".data ++ kv.2.1 ++ "): ".data ++ msgDesc)) := by
  have hms : get_methods_strings ["a: int".data, " return: None".data] =
      some ⟨"a: int".data, "None".data, "a (int): Explain this...".data, []⟩ := by
    decide
  have hd : get_methods_dictionary ["a: int".data, " return: None".data] =
      some [("a".data, ("int".data, none)), ("return".data, ("None".data, none))] := by
    decide
  have h1 := C4_params_docstring_names.1 _ _ _ hms hd
  have h2 := C4_params_docstring_names.2 ["a: int".data] " return: None".data
    [("a".data, ("int".data, none))] ("None".data, none)
    (by decide) (by decide) (by decide) (by decide)
  exact ⟨h2, h1⟩

/-- C5 counterexample: for the single-token list `x: float` the final entry's
type is `float`, yet the code's return type is the literal `None` (the dict
has no key `return`) and no Returns block is emitted. -/
theorem C5_counterexample :
    (get_methods_strings (pySplit ',' "x: float".data)).map
      MethodStrings.return_type = some "None".data ∧
    (get_methods_strings (pySplit ',' "x: float".data)).map
      MethodStrings.returns_string = some [] ∧
    specFinalReturnType (pySplit ',' "x: float".data) = some "float".data ∧
    ("None".data : Str) ≠ "float".data := by
  decide

/-- C5 (amended): the substituted return type is the type component of the
dict entry keyed `return` (wherever that token occurs), defaulting to the
literal `None` when no token is named `return`; the Returns block is
non-empty exactly when that return type differs from `None`; and under the
trailing-return convention the return type is the final token's type. -/
theorem C5_return_type_selection :
    (∀ (ps : List Str) (ms : MethodStrings) (d : List (Str × (Str × Option Str))),
      get_methods_strings ps = some ms → get_methods_dictionary ps = some d →
      ms.return_type = (match dictLookup "return".data d with
        | some tv => tv.1
        | none => "None".data) ∧
      (ms.returns_string ≠ [] ↔ ms.return_type ≠ "None".data)) ∧
    (∀ (toks : List Str) (ret : Str) (entries : List (Str × (Str × Option Str)))
      (ty : Str) (dv : Option Str) (ms : MethodStrings),
      parsedAll toks = some entries →
      parseParam ret = some ("return".data, (ty, dv)) →
      (entries.map Prod.fst).Nodup →
      "return".data ∉ entries.map Prod.fst →
      get_methods_strings (toks ++ [ret]) = some ms →
      ms.return_type = ty) := by
  constructor
  · intro ps ms d hms hd
    simp only [get_methods_strings] at hms
    rw [hd] at hms
    simp only [Option.some.injEq] at hms
    subst hms
    refine ⟨rfl, ?_⟩
    show (if (match dictLookup "return".data d with
        | some tv => tv.1
        | none => "None".data) ≠ "None".data then
          "\n\n".data ++ setTab 2 ++ "Returns:\n".data ++ setTab 3 ++
            (match dictLookup "return".data d with
              | some tv => tv.1
              | none => "None".data) ++ ": ".data ++ msgDesc
        else []) ≠ [] ↔ _
    by_cases hcond : (match dictLookup "return".data d with
      | some tv => tv.1
      | none => "None".data) ≠ "None".data
    · rw [if_pos hcond]
      constructor
      · intro _
        exact hcond
      · intro _
        simp
    · rw [if_neg hcond]
      constructor
      · intro hx
        exact absurd rfl hx
      · intro hx
        exact absurd hx hcond
  · intro toks ret entries ty dv ms h1 h2 hnodup hnotin hms
    have hall : parsedAll (toks ++ [ret]) =
        some (entries ++ [("return".data, (ty, dv))]) :=
      parsedAll_append_single h1 h2
    have hnodup' : ((entries ++ [("return".data, (ty, dv))]).map Prod.fst).Nodup := by
      rw [List.map_append]
      rw [List.nodup_append]
      refine ⟨hnodup, List.nodup_singleton _, ?_⟩
      intro a ha hb
      rw [show (([("return".data, (ty, dv))] : List (Str × (Str × Option Str))).map
        Prod.fst) = ["return".data] from rfl] at hb
      rw [List.mem_singleton] at hb
      subst hb
      exact hnotin ha
    have hdict : get_methods_dictionary (toks ++ [ret]) =
        some (entries ++ [("return".data, (ty, dv))]) :=
      get_methods_dictionary_eq hall hnodup'
    have hlook : dictLookup "return".data
        (entries ++ [("return".data, (ty, dv))]) = some (ty, dv) := by
      apply dictLookup_append_right
      intro a ha hcontra
      exact hnotin (hcontra ▸ List.mem_map_of_mem Prod.fst ha)
    simp only [get_methods_strings] at hms
    rw [hdict] at hms
    simp only [Option.some.injEq] at hms
    subst hms
    show (match dictLookup "return".data
        (entries ++ [("return".data, (ty, dv))]) with
      | some tv => tv.1
      | none => "None".data) = ty
    rw [hlook]

/-- C5 witness: for `a: int, return: float` the dict entry keyed `return`
yields the return type `float`, the Returns block is non-empty, and the
trailing-return rule gives the same `float`. -/
theorem C5_return_type_selection_witness :
    (("float".data : Str) = (match dictLookup "return".data
        [("a".data, ("int".data, (none : Option Str))),
         ("return".data, ("float".data, (none : Option Str)))] with
      | some tv => tv.1
      | none => "None".data)) ∧
    (("float".data : Str) = "float".data) := by
  have hms : get_methods_strings ["a: int".data, " return: float".data] =
      some ⟨"a: int".data, "float".data, "a (int): Explain this...".data,
        "\n\n".data ++ setTab 2 ++ "Returns:\n".data ++ setTab 3 ++
          "float".data ++ ": ".data ++ msgDesc⟩ := by decide
  have hd : get_methods_dictionary ["a: int".data, " return: float".data] =
      some [("a".data, ("int".data, none)), ("return".data, ("float".data, none))] := by
    decide
  have h1 := (C5_return_type_selection.1 _ _ _ hms hd).1
  have h2 := C5_return_type_selection.2 ["a: int".data] " return: float".data
    [("a".data, ("int".data, none))] "float".data none _
    (by decide) (by decide) (by decide) (by decide) hms
  exact ⟨h1, h2.symm ▸ rfl⟩

/-- C6 counterexample: for `a: int, b: str, return: None` the test stub lists
the raw name parts without trimming, so the second listed name is
`(space)b`, not `b` as the parameter parser would derive; with a template
that is exactly the `params` token, the stub text shows the stray space. -/
theorem C6_counterexample :
    testParamNames "a: int, b: str, return: None".data =
      ["a".data, ' ' :: "b".data] ∧
    specTestParamNames "a: int, b: str, return: None".data =
      ["a".data, "b".data] ∧
    testParamNames "a: int, b: str, return: None".data ≠
      specTestParamNames "a: int, b: str, return: None".data ∧
    get_method_tests ⟨[], [], [], tokOf "params".data, []⟩
      ⟨"f".data, [], [], [':'], "F".data⟩ "m".data
      "a: int, b: str, return: None".data =
      "a,\n        #     b".data := by
  decide

/-- C6 (amended): the `params` substitution lists, for every raw token but
the last, the untrimmed part of the token before its first colon (types and
defaults dropped); this coincides with the parser-derived names exactly when
those name parts carry no surrounding whitespace. -/
theorem C6_test_stub_params :
    (∀ raw : Str, testParamNames raw =
      ((pySplit ',' raw).take ((pySplit ',' raw).length - 1)).map
        fun p => (pySplit ':' p).headD []) ∧
    (∀ raw : Str,
      (∀ p ∈ (pySplit ',' raw).dropLast,
        pyStrip ((pySplit ':' p).headD []) = (pySplit ':' p).headD []) →
      testParamNames raw = specTestParamNames raw) ∧
    testParamNames "x: int = 5, return: None".data = ["x".data] ∧
    (∀ (t : Templates) (st : GenState) (mn raw : Str),
      get_method_tests t st mn raw = replaceAll tokParams (testParamsString raw)
        (replaceAll tokClassName st.name_class
          (replaceAll tokClassFile st.name_file
            (replaceAll tokMethodName mn t.methodsTestsT)))) := by
  refine ⟨?_, ?_, by decide, fun t st mn raw => rfl⟩
  · intro raw
    rw [testParamNames, List.dropLast_eq_take]
  · intro raw h
    rw [testParamNames, specTestParamNames]
    apply List.map_congr_left
    intro p hp
    exact (h p hp).symm

/-- C6 witness: for `a: int, return: None` the name part is already trimmed,
so the stub names agree with the parser-derived names. -/
theorem C6_test_stub_params_witness :
    testParamNames "a: int, return: None".data =
      specTestParamNames "a: int, return: None".data :=
  C6_test_stub_params.2.1 "a: int, return: None".data (by decide)

/-- C7: the rendered class text is always the header (with the attribute
substitutions) first, then the accessor blocks in attribute order, then the
method blocks in method order; instantiated for attributes `[x, y]` and
methods `[area, perimeter]`. -/
theorem C7_fixed_output_order :
    (∀ (t : Templates) (s : GenSpec) (out : Str),
      genClassTextOpt t (mkGenState s) = some out →
      ∃ blocks : List Str,
        renderMethodBlocks t s.methods = some blocks ∧
        out = get_class t (mkGenState s) ++
          (s.attributes.map fun p => get_accessors t p.1 p.2).flatten ++
          blocks.flatten) ∧
    (∀ (t : Templates) (f inh : Str) (x y ar pe : Str × Str) (bar bpe : Str),
      get_method t ar.1 (pySplit ',' ar.2) = some bar →
      get_method t pe.1 (pySplit ',' pe.2) = some bpe →
      genClassTextOpt t (mkGenState ⟨f, [x, y], [ar, pe], inh⟩) =
        some (get_class t (mkGenState ⟨f, [x, y], [ar, pe], inh⟩) ++
          (get_accessors t x.1 x.2 ++ (get_accessors t y.1 y.2 ++ [])) ++
          (bar ++ (bpe ++ [])))) := by
  constructor
  · intro t s out h
    simp only [genClassTextOpt] at h
    cases hrb : renderMethodBlocks t s.methods with
    | none =>
      rw [show renderMethodBlocks t (mkGenState s).methods =
        renderMethodBlocks t s.methods from rfl, hrb] at h
      cases h
    | some blocks =>
      rw [show renderMethodBlocks t (mkGenState s).methods =
        renderMethodBlocks t s.methods from rfl, hrb] at h
      simp only [Option.some.injEq] at h
      subst h
      exact ⟨blocks, rfl, rfl⟩
  · intro t f inh x y ar pe bar bpe h1 h2
    have hrb : renderMethodBlocks t [ar, pe] = some [bar, bpe] := by
      simp only [renderMethodBlocks, h1, h2]
    simp only [genClassTextOpt, mkGenState]
    rw [hrb]
    simp [accessorsAll, mkGenState]

/-- C7 witness: a concrete two-attribute, two-method request renders in the
fixed order with empty templates. -/
theorem C7_fixed_output_order_witness :
    genClassTextOpt ⟨[], [], [], [], []⟩
      (mkGenState ⟨"point".data,
        [("x".data, "int".data), ("y".data, "int".data)],
        [("area".data, "return: float".data),
         ("perimeter".data, "return: float".data)], []⟩) =
      some (get_class ⟨[], [], [], [], []⟩
        (mkGenState ⟨"point".data,
          [("x".data, "int".data), ("y".data, "int".data)],
          [("area".data, "return: float".data),
           ("perimeter".data, "return: float".data)], []⟩) ++
        (get_accessors ⟨[], [], [], [], []⟩ "x".data "int".data ++
          (get_accessors ⟨[], [], [], [], []⟩ "y".data "int".data ++ [])) ++
        ([] ++ ([] ++ []))) := by
  exact C7_fixed_output_order.2 ⟨[], [], [], [], []⟩ "point".data []
    ("x".data, "int".data) ("y".data, "int".data)
    ("area".data, "return: float".data) ("perimeter".data, "return: float".data)
    [] [] (by decide) (by decide)

/-- C8 counterexample: with an accessors template that is exactly the two
enumerated tokens separated by a colon, an attribute whose type is the text
of the `attribute_name` token survives into the rendered class text: the
artifact still contains the placeholder token `attribute_name` of the chosen
template, because substituted values are re-scanned by the later
replacements only, never by the earlier ones. -/
theorem C8_counterexample :
    TemplateOK accessorsTokNames
      (tokOf "attribute_name".data ++ (':' :: (tokOf "attribute_type".data ++ []))) ∧
    genClassTextOpt
      ⟨[], tokOf "attribute_name".data ++ (':' :: (tokOf "attribute_type".data ++ [])),
        [], [], []⟩
      (mkGenState ⟨"f".data, [("n".data, tokOf "attribute_name".data)], [], []⟩) =
      some ('n' :: ':' :: tokOf "attribute_name".data) ∧
    ('n' :: ':' :: tokOf "attribute_name".data) =
      "n:".data ++ tokOf "attribute_name".data := by
  refine ⟨?_, by decide, by decide⟩
  exact TemplateOK.tok (by decide)
    (TemplateOK.lit (by decide) (by decide)
      (TemplateOK.tok (by decide) TemplateOK.nil))

/-- C8 (amended): when every template contains only its enumerated tokens
and every string of the request is brace-free, the rendered class text and
the rendered test text contain no brace characters at all, hence no
unresolved placeholder token. -/
theorem C8_no_unresolved_placeholders :
    ∀ (t : Templates) (s : GenSpec) (out : Str),
      TemplatesOK t → braceFree s.name_file →
      (∀ p ∈ s.attributes, braceFree p.1 ∧ braceFree p.2) →
      (∀ p ∈ s.methods, braceFree p.1 ∧ braceFree p.2) →
      (genClassTextOpt t (mkGenState s) = some out → braceFree out) ∧
      braceFree (genTestsText t (mkGenState s)) := by
  intro t s out hT hnf hattrs hmethods
  obtain ⟨hTc, hTa, hTm, hTmt, hTt⟩ := hT
  have hnc : braceFree (nameClass s.name_file) := braceFree_nameClass hnf
  constructor
  · intro h
    simp only [genClassTextOpt] at h
    cases hrb : renderMethodBlocks t (mkGenState s).methods with
    | none =>
      rw [hrb] at h
      cases h
    | some blocks =>
      rw [hrb] at h
      simp only [Option.some.injEq] at h
      subst h
      apply braceFree_append
      apply braceFree_append
      · exact braceFree_get_class hTc hnc hattrs
      · apply braceFree_flatten
        intro x hx
        obtain ⟨p, hp, rfl⟩ := List.mem_map.mp hx
        exact braceFree_get_accessors hTa (hattrs p hp).1 (hattrs p hp).2
      · apply braceFree_flatten
        exact renderMethodBlocks_braceFree hTm hmethods hrb
  · apply braceFree_get_class_tests hTt hnc
    · apply braceFree_flatten
      intro x hx
      obtain ⟨m, hm, rfl⟩ := List.mem_map.mp hx
      exact braceFree_get_method_tests hTmt (hmethods m hm).1 hnf hnc
        (braceFree_testParamsString (hmethods m hm).2)
    · exact hnf

/-- C8 witness: with empty templates and a brace-free request, both rendered
artifacts are brace-free. -/
theorem C8_no_unresolved_placeholders_witness :
    braceFree ([] : Str) ∧
    braceFree (genTestsText ⟨[], [], [], [], []⟩
      (mkGenState ⟨"foo".data, [("x".data, "int".data)],
        [("m".data, "a: int, return: None".data)], []⟩)) := by
  have h := C8_no_unresolved_placeholders ⟨[], [], [], [], []⟩
    ⟨"foo".data, [("x".data, "int".data)],
      [("m".data, "a: int, return: None".data)], []⟩ []
    ⟨TemplateOK.nil, TemplateOK.nil, TemplateOK.nil, TemplateOK.nil, TemplateOK.nil⟩
    (by decide) (by decide) (by decide)
  exact ⟨h.1 (by decide), h.2⟩

/-- C9: the write run of `_gen_class` succeeds exactly when every method
renders; on success the written file is the complete class text, and on any
method failure the error is raised (the flag is set) and the text on disk is
accompanied by that flag, never a silently complete-looking file. -/
theorem C9_failure_propagation :
    ∀ (t : Templates) (st : GenState),
      ((genClassRun t st).2 = true →
        genClassTextOpt t st = some (genClassRun t st).1) ∧
      ((genClassRun t st).2 = false → genClassTextOpt t st = none) ∧
      ((genClassRun t st).2 = false ↔
        ∃ m ∈ st.methods, get_method t m.1 (pySplit ',' m.2) = none) := by
  intro t st
  cases hrb : renderMethodBlocks t st.methods with
  | some blocks =>
    have hrun := runMethods_of_blocks st.methods
      (get_class t st ++ accessorsAll t st) blocks hrb
    have hflag : genClassRun t st =
        (get_class t st ++ accessorsAll t st ++ blocks.flatten, true) := by
      rw [genClassRun, hrun]
    refine ⟨fun _ => ?_, fun hf => ?_, ?_⟩
    · simp only [genClassTextOpt, hrb, hflag]
    · rw [hflag] at hf
      cases hf
    · constructor
      · intro hf
        rw [hflag] at hf
        cases hf
      · intro hex
        have hnone := (renderMethodBlocks_none_iff st.methods).mpr hex
        rw [hrb] at hnone
        cases hnone
  | none =>
    have hrun := runMethods_of_none st.methods
      (get_class t st ++ accessorsAll t st) hrb
    refine ⟨fun htrue => ?_, fun _ => ?_, ?_⟩
    · rw [genClassRun] at htrue
      rw [hrun] at htrue
      cases htrue
    · simp only [genClassTextOpt, hrb]
    · constructor
      · intro _
        exact (renderMethodBlocks_none_iff st.methods).mp hrb
      · intro _
        rw [genClassRun]
        exact hrun

/-- C9 witness: a method whose token has no colon makes the run fail and the
render return no text, while an all-good request writes the complete text. -/
theorem C9_failure_propagation_witness :
    genClassTextOpt ⟨[], [], [], [], []⟩
      ⟨"f".data, [], [("m".data, "noColon".data)], [':'], "F".data⟩ = none ∧
    genClassTextOpt ⟨[], [], [], [], []⟩
      ⟨"f".data, [], [("m".data, "return: None".data)], [':'], "F".data⟩ =
      some (genClassRun ⟨[], [], [], [], []⟩
        ⟨"f".data, [], [("m".data, "return: None".data)], [':'], "F".data⟩).1 := by
  refine ⟨?_, ?_⟩
  · exact (C9_failure_propagation ⟨[], [], [], [], []⟩
      ⟨"f".data, [], [("m".data, "noColon".data)], [':'], "F".data⟩).2.1 (by decide)
  · exact (C9_failure_propagation ⟨[], [], [], [], []⟩
      ⟨"f".data, [], [("m".data, "return: None".data)], [':'], "F".data⟩).1 (by decide)

/-- C10: the base-class argument is recorded at construction (as the
`_inherit` suffix string) but influences neither the generated class text
nor the generated test text: any two inherit values give byte-identical
outputs. -/
theorem C10_inherit_no_influence :
    ∀ (t : Templates) (s : GenSpec) (i1 i2 : Str),
      genClassTextOpt t (mkGenState { s with inherit := i1 }) =
        genClassTextOpt t (mkGenState { s with inherit := i2 }) ∧
      genTestsText t (mkGenState { s with inherit := i1 }) =
        genTestsText t (mkGenState { s with inherit := i2 }) ∧
      (mkGenState { s with inherit := i1 }).inheritStr = inheritString i1 := by
  intro t s i1 i2
  exact ⟨rfl, rfl, rfl⟩
